import Mathlib

/-!
Verification of the table-synchronization engine of the darkwatchintel
repository (`cti_manager.py`) and of the batch-check loop of
`telegram_monitor.py`.

Text is modelled as `List Char` (one entry per Unicode scalar value, matching
Python's `len`/indexing on `str`).  Python's `str.upper`/`str.lower`/whitespace
handling is modelled on the ASCII range, which covers every character the
program's own comparisons inspect.
-/

namespace DarkWatch

abbrev Str := List Char

def toL (s : String) : Str := s.toList

/-- Whitespace set of Python's `str.strip` / regex `\s`, restricted to ASCII. -/
def pyIsSpace (c : Char) : Bool :=
  c = ' ' || c = '\t' || c = '\n' || c = '\r' || c = '\x0b' || c = '\x0c'

/-- Python `str.lstrip()`. -/
def lstripP (s : Str) : Str := s.dropWhile pyIsSpace

/-- Python `str.rstrip()`. -/
def rstripP (s : Str) : Str := (s.reverse.dropWhile pyIsSpace).reverse

/-- Python `str.strip()`. -/
def stripP (s : Str) : Str := lstripP (rstripP s)

/-- Python `str.upper()` (ASCII model). -/
def upperP (s : Str) : Str := s.map Char.toUpper

/-- Python `str.lower()` (ASCII model). -/
def lowerP (s : Str) : Str := s.map Char.toLower

/-- Python substring test `needle in hay`. -/
def containsSub (needle : Str) : Str → Bool
  | [] => needle.isEmpty
  | c :: t => needle.isPrefixOf (c :: t) || containsSub needle t

/-- Python `str.split(sep)` for a one-character separator. -/
def splitOnChar (sep : Char) : Str → List Str
  | [] => [[]]
  | c :: rest =>
    if c = sep then [] :: splitOnChar sep rest
    else
      match splitOnChar sep rest with
      | [] => [[c]]
      | h :: t => (c :: h) :: t

/-- Python `sep.join(pieces)`. -/
def joinSep (sep : Str) : List Str → Str
  | [] => []
  | [x] => x
  | x :: y :: t => x ++ sep ++ joinSep sep (y :: t)

/-- Python `str.ljust(w)` with space fill. -/
def ljust (w : Nat) (s : Str) : Str := s ++ List.replicate (w - s.length) ' '

/-- Python slice `s[:k]` for an `Int` bound (negative counts from the end). -/
def pySliceTo (k : Int) (l : Str) : Str :=
  if 0 ≤ k then l.take k.toNat else l.take (l.length - (-k).toNat)

/-- Python list read `row[i]` for an `Int` index (negative wraps; a negative
index below `-len` raises in Python and is given the harmless value `[]`
here, which no reachable call site depends on). -/
def pyGet (row : List Str) (i : Int) : Str :=
  if 0 ≤ i then row.getD i.toNat [] else row.getD (row.length - (-i).toNat) []

/-- Python list write `row[i] = v` for an `Int` index (same conventions as
`pyGet`). -/
def pySet (row : List Str) (i : Int) (v : Str) : List Str :=
  if 0 ≤ i then row.set i.toNat v else row.set (row.length - (-i).toNat) v

/-! ## `cti_manager.py` -/

/-- `STATUS_EMOJI` dict of `cti_manager.py` (insertion order preserved, as
Python dict iteration does). -/
def STATUS_EMOJI : List (Str × Char) :=
  [(toL "ONLINE", '🟢'), (toL "OFFLINE", '🔴'), (toL "EXPIRED", '⚪'),
   (toL "VALID", '🟢'), (toL "SEIZED", '🔵'), (toL "REDIRECT TO TOR", '🟡')]

/-- The glyph class of the regex `^[🟢🔴⚪🔵🟡]\s*` in `filter_expired_rows`. -/
def glyphChars : List Char := ['🟢', '🔴', '⚪', '🔵', '🟡']

/-- `re.sub(r'^[🟢🔴⚪🔵🟡]\s*', '', s)`: drop one leading glyph and the
whitespace after it; otherwise leave `s` unchanged. -/
def stripGlyph (s : Str) : Str :=
  match s with
  | [] => []
  | c :: rest => if glyphChars.contains c then rest.dropWhile pyIsSpace else s

/-- Result type of `parse_markdown_table`. -/
structure ParsedDoc where
  headers : List Str
  rows : List (List Str)
  before : Str
  after : Str
deriving DecidableEq, Repr

/-- `'|' in line`. -/
def hasBar (l : Str) : Bool := l.contains '|'

/-- Header parsing line 68: split on `|`, strip, keep non-empty pieces. -/
def parseHeaderLine (l : Str) : List Str :=
  ((splitOnChar '|' l).map stripP).filter (fun h => !h.isEmpty)

/-- `if cells and cells[0] == '': cells = cells[1:]`. -/
def dropFirstEmpty (cs : List Str) : List Str :=
  match cs with
  | [] :: t => t
  | cs => cs

/-- `if cells and cells[-1] == '': cells = cells[:-1]`. -/
def dropLastEmpty (cs : List Str) : List Str :=
  if cs.getLast? = some [] then cs.dropLast else cs

/-- Row parsing lines 72-81 of `parse_markdown_table` for one line: skip blank
lines, split on `|`, strip cells, drop one leading and one trailing empty
cell, discard the row when nothing remains. -/
def parseRowLine (l : Str) : Option (List Str) :=
  if (stripP l).isEmpty then none
  else
    if (dropLastEmpty (dropFirstEmpty ((splitOnChar '|' l).map stripP))).isEmpty then none
    else some (dropLastEmpty (dropFirstEmpty ((splitOnChar '|' l).map stripP)))

/-- `parse_markdown_table` (lines 38-83): find the first line containing `|`,
then the first later line not containing `|`; everything before is the prefix,
everything from the end line on is the suffix; parse headers from the first
table line and data rows from the third table line onward. -/
def parse_markdown_table (content : Str) : ParsedDoc :=
  let lines := splitOnChar '\n' content
  match lines.findIdx? (fun l => hasBar l) with
  | none => ⟨[], [], content, []⟩
  | some ts =>
    let te := match (lines.drop (ts + 1)).findIdx? (fun l => !hasBar (stripP l)) with
      | none => lines.length
      | some k => ts + 1 + k
    let table_lines := (lines.take te).drop ts
    { headers := match table_lines with
        | [] => []
        | h :: _ => parseHeaderLine h
      rows := (table_lines.drop 2).filterMap parseRowLine
      before := joinSep ['\n'] (lines.take ts)
      after := joinSep ['\n'] (lines.drop te) }

/-- `find_status_column` (lines 86-91): index of the first header equal to
`"status"` case-insensitively, `-1` if none. -/
def find_status_column (headers : List Str) : Int :=
  match headers.findIdx? (fun h => lowerP h = toL "status") with
  | some i => (i : Int)
  | none => -1

/-- The terminal-status test inlined in `filter_expired_rows` lines 103-110:
uppercase, strip, drop a leading glyph, then substring-match OFFLINE/EXPIRED. -/
def isTerminalStatus (cell : Str) : Bool :=
  let status := stripP (upperP cell)
  let status_clean := stripGlyph status
  [toL "OFFLINE", toL "EXPIRED"].any (fun s => containsSub s status_clean)

/-- `filter_expired_rows` (lines 94-113).  Note the source appends a row only
inside `if len(row) > status_col`, and appends every such row when
`keep_offline` is set. -/
def filter_expired_rows (rows : List (List Str)) (status_col : Int)
    (keep_offline : Bool := false) : List (List Str) :=
  if status_col = -1 then rows
  else rows.filter (fun row =>
    if status_col < (row.length : Int) then
      keep_offline || !isTerminalStatus (pyGet row status_col)
    else false)

/-- `max_widths` cap list of `calculate_column_widths` (line 129). -/
def max_widths : List Nat := [60, 15, 50, 80, 30]

/-- One pass of the inner loop of `calculate_column_widths` (lines 121-126):
`widths[i] = max(widths[i], min(len(cell), max_width))` for `i < len(widths)`. -/
def updateWidths (mw : Nat) : List Nat → List Str → List Nat
  | [], _ => []
  | ws, [] => ws
  | w :: ws, c :: cs => max w (min c.length mw) :: updateWidths mw ws cs

/-- The cap loop of `calculate_column_widths` (lines 129-132):
`widths[i] = min(widths[i], max_widths[i])` for `i < len(max_widths)`. -/
def capWidths : List Nat → List Nat → List Nat
  | _, [] => []
  | [], w :: ws => w :: capWidths [] ws
  | cap :: caps, w :: ws => min w cap :: capWidths caps ws

/-- `calculate_column_widths` (lines 116-134). -/
def calculate_column_widths (headers : List Str) (rows : List (List Str))
    (max_width : Nat := 80) : List Nat :=
  capWidths max_widths (rows.foldl (updateWidths max_width) (headers.map List.length))

/-- `add_status_emoji` (lines 137-150); the local
`status_clean = status.strip().upper()` is inlined as
`upperP (stripP status)`. -/
def add_status_emoji (status : Str) : Str :=
  if STATUS_EMOJI.any (fun p => status.contains p.2) then status
  else
    match STATUS_EMOJI.find? (fun p => containsSub p.1 (upperP (stripP status))) with
    | some p => p.2 :: ' ' :: stripP status
    | none => status

/-- In-place decoration step of `rebuild_markdown_table` lines 167-169:
`if len(row) > status_col: row[status_col] = add_status_emoji(row[status_col])`. -/
def decorateRow (sc : Int) (row : List Str) : List Str :=
  if sc < (row.length : Int) then pySet row sc (add_status_emoji (pyGet row sc)) else row

/-- In-place padding of lines 192-193 / 216-217:
`while len(row) < len(headers): row.append('')`. -/
def padRow (n : Nat) (row : List Str) : List Str :=
  row ++ List.replicate (n - row.length) []

/-- Beautified row assembly `'| ' + ' | '.join(cells) + ' |'`. -/
def rowLine (cells : List Str) : Str := toL "| " ++ joinSep (toL " | ") cells ++ toL " |"

/-- Compact row assembly `'|' + '|'.join(cells) + '|'`. -/
def simpleRowLine (cells : List Str) : Str := '|' :: (joinSep ['|'] cells ++ ['|'])

/-- Header cells of lines 178-179: `h.ljust(widths[i]) if i < len(widths) else h`. -/
def headerCells : List Nat → List Str → List Str
  | _, [] => []
  | [], h :: hs => h :: headerCells [] hs
  | w :: ws, h :: hs => ljust w h :: headerCells ws hs

/-- Separator cells of lines 184-185: `'-'*widths[i] if i < len(widths) else '---'`. -/
def sepCells : List Nat → Nat → List Str
  | _, 0 => []
  | [], n + 1 => toL "---" :: sepCells [] n
  | w :: ws, n + 1 => List.replicate w '-' :: sepCells ws n

/-- One data cell of lines 196-201: truncate to `widths[i]-3` plus `'...'`
when over-long, then left-justify. -/
def renderCell (w : Nat) (cell : Str) : Str :=
  ljust w (if cell.length > w then pySliceTo ((w : Int) - 3) cell ++ toL "..." else cell)

/-- Data cells of lines 195-203 over `row[:len(headers)]`, with the
`i < len(widths)` guard. -/
def renderCells : List Nat → List Str → List Str
  | _, [] => []
  | [], c :: cs => c :: renderCells [] cs
  | w :: ws, c :: cs => renderCell w c :: renderCells ws cs

/-- Reassembly lines 223-236: rstrip the prefix, lstrip the suffix, join with
blank lines, append a final newline when the suffix is empty. -/
def assembleDoc (content_before content_after table : Str) : Str :=
  let before := rstripP content_before
  let after := lstripP content_after
  (before ++ (if before.isEmpty then [] else toL "\n\n")) ++ table ++
    (if after.isEmpty then ['\n'] else toL "\n\n" ++ after)

/-- The column widths used by `rebuild_markdown_table` (lines 162-171):
recomputed on the decorated rows when emoji decoration applies, otherwise the
initial widths of line 162. -/
def rebuildWidths (headers : List Str) (rows : List (List Str)) (add_emoji : Bool) :
    List Nat :=
  if add_emoji && decide (find_status_column headers ≠ -1) then
    calculate_column_widths headers (rows.map (decorateRow (find_status_column headers)))
  else calculate_column_widths headers rows

/-- The rows after the in-place decoration pass of lines 166-169. -/
def rebuildRows1 (headers : List Str) (rows : List (List Str)) (add_emoji : Bool) :
    List (List Str) :=
  if add_emoji && decide (find_status_column headers ≠ -1) then
    rows.map (decorateRow (find_status_column headers))
  else rows

/-- The rows after the in-place padding of lines 192-193 / 216-217. -/
def rebuildRows2 (headers : List Str) (rows : List (List Str)) (add_emoji : Bool) :
    List (List Str) :=
  (rebuildRows1 headers rows add_emoji).map (padRow headers.length)

/-- The table lines built in lines 174-219 (beautified or compact). -/
def rebuildTableLines (headers : List Str) (rows : List (List Str))
    (beautify add_emoji : Bool) : List Str :=
  if beautify then
    rowLine (headerCells (rebuildWidths headers rows add_emoji) headers) ::
    rowLine (sepCells (rebuildWidths headers rows add_emoji) headers.length) ::
    (rebuildRows2 headers rows add_emoji).map
      (fun r => rowLine (renderCells (rebuildWidths headers rows add_emoji)
        (r.take headers.length)))
  else
    simpleRowLine headers ::
    simpleRowLine (List.replicate headers.length (toL " ------ ")) ::
    (rebuildRows2 headers rows add_emoji).map (fun r => simpleRowLine (r.take headers.length))

/-- `rebuild_markdown_table` (lines 153-236) in state-passing form: the first
component is the returned document text, the second is the final state of the
caller's `rows` argument (the source decorates status cells and pads rows in
place on the very lists it was given). -/
def rebuildFull (headers : List Str) (rows : List (List Str))
    (content_before content_after : Str)
    (beautify : Bool := true) (add_emoji : Bool := true) :
    Str × List (List Str) :=
  if rows.isEmpty then (content_before ++ content_after, rows)
  else
    (assembleDoc content_before content_after
      (joinSep ['\n'] (rebuildTableLines headers rows beautify add_emoji)),
     rebuildRows2 headers rows add_emoji)

/-- The document text returned by `rebuild_markdown_table`. -/
def rebuild_markdown_table (headers : List Str) (rows : List (List Str))
    (content_before content_after : Str)
    (beautify : Bool := true) (add_emoji : Bool := true) : Str :=
  (rebuildFull headers rows content_before content_after beautify add_emoji).1

/-- The final state of the `rows` argument after `rebuild_markdown_table`. -/
def rebuildFinalRows (headers : List Str) (rows : List (List Str))
    (beautify : Bool := true) (add_emoji : Bool := true) : List (List Str) :=
  (rebuildFull headers rows [] [] beautify add_emoji).2

/-- Core of `get_upstream_diff` (lines 344-350): the upstream rows kept are
those that are non-empty lists whose first cell is not among the local first
cells (`row[0] if row else ''`). -/
def get_upstream_diff (local_rows upstream_rows : List (List Str)) : List (List Str) :=
  let local_keys := local_rows.map (fun row => if row.isEmpty then [] else row.headD [])
  upstream_rows.filter (fun row => !row.isEmpty && !(local_keys.contains (row.headD [])))

/-- Sort key of `merge_upstream_entries` line 388: `x[0].lower() if x else ''`. -/
def mergeKey (row : List Str) : Str :=
  if row.isEmpty then [] else lowerP (row.headD [])

/-- Python string `<=`: lexicographic comparison by code point. -/
def lexLe : Str → Str → Bool
  | [], _ => true
  | _ :: _, [] => false
  | a :: as, b :: bs => if a < b then true else if b < a then false else lexLe as bs

/-- Row comparison induced by Python's stable `list.sort(key=...)`. -/
def rowLe (a b : List Str) : Bool := lexLe (mergeKey a) (mergeKey b)

/-- Core of `merge_upstream_entries` (lines 385-388): extend the local rows
with the new rows, then stable-sort on the lower-cased first cell.  Python's
`list.sort` is a stable sort; `List.mergeSort` is the stable sort on lists in
Lean, so the two agree. -/
def merge_rows (rows new_rows : List (List Str)) : List (List Str) :=
  (rows ++ new_rows).mergeSort rowLe

/-! ## `telegram_monitor.py` -/

/-- The only field of a check result that `run_checks`' control flow inspects. -/
structure CheckResult where
  status : Str
deriving DecidableEq, Repr

/-- Batch loop of `run_checks` (lines 264-274), with the network collaborator
`check_telegram_url` abstracted as a pure oracle `check` (every exception it
can raise is caught inside it and returned as a status, so the loop sees only
results): append each result in order and stop right after the first result
whose status is `FLOOD`. -/
def run_checks (check : Str → CheckResult) : List Str → List CheckResult
  | [] => []
  | url :: rest =>
    let r := check url
    if r.status = toL "FLOOD" then [r]
    else r :: run_checks check rest

/-! ## Helper lemmas about `add_status_emoji` -/

theorem add_status_emoji_of_any (x : Str)
    (h : STATUS_EMOJI.any (fun p => x.contains p.2) = true) :
    add_status_emoji x = x := by
  unfold add_status_emoji
  rw [if_pos h]

theorem add_status_emoji_of_find_none (x : Str)
    (h1 : STATUS_EMOJI.any (fun p => x.contains p.2) = false)
    (h2 : STATUS_EMOJI.find? (fun p => containsSub p.1 (upperP (stripP x))) = none) :
    add_status_emoji x = x := by
  unfold add_status_emoji
  rw [if_neg (by rw [h1]; exact Bool.false_ne_true), h2]

theorem add_status_emoji_of_find_some (x : Str) (p : Str × Char)
    (h1 : STATUS_EMOJI.any (fun p => x.contains p.2) = false)
    (h2 : STATUS_EMOJI.find? (fun p => containsSub p.1 (upperP (stripP x))) = some p) :
    add_status_emoji x = p.2 :: ' ' :: stripP x := by
  unfold add_status_emoji
  rw [if_neg (by rw [h1]; exact Bool.false_ne_true), h2]

/-- Decorating twice equals decorating once. -/
theorem add_status_emoji_idem (x : Str) :
    add_status_emoji (add_status_emoji x) = add_status_emoji x := by
  by_cases h1 : STATUS_EMOJI.any (fun p => x.contains p.2) = true
  · rw [add_status_emoji_of_any x h1, add_status_emoji_of_any x h1]
  · have h1' : STATUS_EMOJI.any (fun p => x.contains p.2) = false := by
      simpa using h1
    cases h2 : STATUS_EMOJI.find? (fun p => containsSub p.1 (upperP (stripP x))) with
    | none =>
      rw [add_status_emoji_of_find_none x h1' h2, add_status_emoji_of_find_none x h1' h2]
    | some p =>
      rw [add_status_emoji_of_find_some x p h1' h2]
      apply add_status_emoji_of_any
      refine List.any_eq_true.mpr ⟨p, List.mem_of_find?_eq_some h2, ?_⟩
      simp [List.contains_cons]

/-! ## Claim theorems -/

/-- Claim C2, evidence of the code bug: with `keep_offline = true`,
`filter_expired_rows` keeps EVERY row that has a status cell — including rows
whose status is EXPIRED — although the tool's own `--keep-offline` help text
says "Keep OFFLINE entries (only remove EXPIRED)". -/
theorem C2_keep_offline_keeps_expired :
    filter_expired_rows [[toL "x", toL "EXPIRED"]] 1 true = [[toL "x", toL "EXPIRED"]] ∧
    filter_expired_rows [[toL "y", toL "OFFLINE"]] 1 true = [[toL "y", toL "OFFLINE"]] := by
  decide

/-- Claim C3, counterexample: with a located status column and
`keep_offline = false`, a record too short to have a status cell at that index
is dropped by `filter_expired_rows`, while the claim says such a record is
never dropped. -/
theorem C3_counterexample :
    filter_expired_rows [[toL "a"]] 1 false = [] ∧ ¬ (1 < [toL "a"].length) := by
  decide

/-- Claim C3 as amended: with a located status column (a natural index) and
`keep_offline = false`, a record is kept iff it is long enough to have a
status cell at that index AND that cell is not terminal
(OFFLINE/EXPIRED substring after uppercasing and glyph stripping); records
too short for the index are dropped.  Kept records form a sublist of the
input, so their relative order is preserved. -/
theorem C3_filter_drop_iff_amended (rows : List (List Str)) (sc : Nat) :
    filter_expired_rows rows (sc : Int) false =
      rows.filter (fun row => decide (sc < row.length) && !isTerminalStatus (row.getD sc [])) ∧
    List.Sublist (filter_expired_rows rows (sc : Int) false) rows := by
  have hne : (sc : Int) ≠ -1 := by omega
  have hmain : filter_expired_rows rows (sc : Int) false =
      rows.filter (fun row => decide (sc < row.length) && !isTerminalStatus (row.getD sc [])) := by
    unfold filter_expired_rows
    rw [if_neg hne]
    apply List.filter_congr
    intro row _
    by_cases h : sc < row.length
    · have h' : (sc : Int) < (row.length : Int) := by exact_mod_cast h
      rw [if_pos h']
      simp [pyGet, h]
    · have h' : ¬ ((sc : Int) < (row.length : Int)) := by exact_mod_cast h
      rw [if_neg h']
      simp [h]
  exact ⟨hmain, hmain ▸ List.filter_sublist rows⟩

/-- Claim C4, counterexample: an upstream record whose first cell is the empty
string is NOT skipped by the reconciler — `get_upstream_diff` returns it
whenever no local key equals the empty string — while the claim says records
with an empty first cell are skipped entirely. -/
theorem C4_counterexample :
    get_upstream_diff [[toL "a"]] [[([] : Str), toL "x"]] = [[([] : Str), toL "x"]] := by
  decide

/-- Claim C4 as amended: `get_upstream_diff` returns exactly the upstream
records that are non-empty AS LISTS (at least one cell) and whose first cell
is absent — by exact case-sensitive comparison — from the local key list
(each local record's key being its first cell, or the empty string for an
empty record); the result is a sublist of the upstream records, hence in
upstream order.  Only wholly empty upstream records are skipped
unconditionally; an empty FIRST CELL does not cause a skip. -/
theorem C4_diff_characterization_amended (local_rows upstream_rows : List (List Str)) :
    get_upstream_diff local_rows upstream_rows =
      upstream_rows.filter
        (fun row => decide (row ≠ [] ∧ row.headD [] ∉ local_rows.map (fun w => w.headD []))) ∧
    List.Sublist (get_upstream_diff local_rows upstream_rows) upstream_rows := by
  have hmain : get_upstream_diff local_rows upstream_rows =
      upstream_rows.filter
        (fun row => decide (row ≠ [] ∧ row.headD [] ∉ local_rows.map (fun w => w.headD []))) := by
    unfold get_upstream_diff
    have hkeys : local_rows.map (fun row => if row.isEmpty then ([] : Str) else row.headD []) =
        local_rows.map (fun w => w.headD []) := by
      apply List.map_congr_left
      intro a _
      cases a <;> simp
    rw [hkeys]
    apply List.filter_congr
    intro row _
    cases row with
    | nil => simp
    | cons c t =>
      rw [Bool.eq_iff_iff]
      simp [List.elem_eq_mem]
  exact ⟨hmain, hmain ▸ List.filter_sublist upstream_rows⟩

/-- Claim C7, counterexample: the extractor keys on the first line containing
a delimiter ANYWHERE in the document, not on the first non-blank line; a
document whose first non-blank line has no `|` but that contains a `|` later
still yields a table, with a prefix strictly shorter than the document. -/
theorem C7_counterexample :
    ((splitOnChar '\n' (toL "hello\n|a|")).filter (fun l => !(stripP l).isEmpty)).headD []
        = toL "hello" ∧
    hasBar (toL "hello") = false ∧
    parse_markdown_table (toL "hello\n|a|") ≠ ⟨[], [], toL "hello\n|a|", []⟩ := by
  decide

/-- Claim C7 as amended: for every document NONE of whose lines contains the
delimiter character, the extractor returns an absent table (no headers, no
rows), the entire original text as prefix, and an empty suffix. -/
theorem C7_no_delimiter_amended (content : Str)
    (h : ∀ l ∈ splitOnChar '\n' content, hasBar l = false) :
    parse_markdown_table content = ⟨[], [], content, []⟩ := by
  unfold parse_markdown_table
  have hnone : (splitOnChar '\n' content).findIdx? (fun l => hasBar l) = none :=
    List.findIdx?_eq_none_iff.mpr h
  simp [hnone]

/-- Witness for C7: a concrete delimiter-free document. -/
theorem C7_witness :
    parse_markdown_table (toL "hello world\n\nsecond line") =
      ⟨[], [], toL "hello world\n\nsecond line", []⟩ :=
  C7_no_delimiter_amended _ (by decide)

/-- Claim C8: decoration is idempotent — `add_status_emoji` applied twice
equals it applied once — and a cell in whose uppercased, trimmed text no
known status key occurs as a substring is returned unchanged. -/
theorem C8_decoration_idempotent (x : Str) :
    add_status_emoji (add_status_emoji x) = add_status_emoji x ∧
    ((∀ p ∈ STATUS_EMOJI, containsSub p.1 (upperP (stripP x)) = false) →
      add_status_emoji x = x) := by
  refine ⟨add_status_emoji_idem x, fun h => ?_⟩
  have h2 : STATUS_EMOJI.find? (fun p => containsSub p.1 (upperP (stripP x))) = none :=
    List.find?_eq_none.mpr (by intro q hq; simp [h q hq])
  by_cases h1 : STATUS_EMOJI.any (fun p => x.contains p.2) = true
  · exact add_status_emoji_of_any x h1
  · exact add_status_emoji_of_find_none x (by simpa using h1) h2

/-- Witness for C8 at a concrete cell with no status keyword. -/
theorem C8_witness :
    add_status_emoji (add_status_emoji (toL "pending")) = add_status_emoji (toL "pending") ∧
    add_status_emoji (toL "pending") = toL "pending" :=
  ⟨(C8_decoration_idempotent (toL "pending")).1,
   (C8_decoration_idempotent (toL "pending")).2 (by decide)⟩

/-! ## Helper lemmas for C9 -/

theorem run_checks_eq_map_take (check : Str → CheckResult) (urls : List Str) :
    run_checks check urls =
      (urls.take (urls.findIdx (fun u => decide ((check u).status = toL "FLOOD")) + 1)).map
        check := by
  induction urls with
  | nil => rfl
  | cons u rest ih =>
    by_cases h : (check u).status = toL "FLOOD"
    · simp [run_checks, h, List.findIdx_cons]
    · simp [run_checks, h, List.findIdx_cons, ih]

theorem run_checks_agree (check check₂ : Str → CheckResult) (urls : List Str)
    (h : ∀ u ∈ urls.take (urls.findIdx (fun u => decide ((check u).status = toL "FLOOD")) + 1),
      check₂ u = check u) :
    run_checks check₂ urls = run_checks check urls := by
  induction urls with
  | nil => rfl
  | cons u rest ih =>
    have hu : check₂ u = check u := by
      apply h
      simp [List.take_succ_cons]
    by_cases hf : (check u).status = toL "FLOOD"
    · simp [run_checks, hu, hf]
    · have hrest : run_checks check₂ rest = run_checks check rest := by
        apply ih
        intro v hv
        apply h
        have hidx : (u :: rest).findIdx (fun u => decide ((check u).status = toL "FLOOD")) =
            rest.findIdx (fun u => decide ((check u).status = toL "FLOOD")) + 1 := by
          simp [List.findIdx_cons, hf]
        rw [hidx, List.take_succ_cons]
        exact List.mem_cons_of_mem _ hv
      simp [run_checks, hu, hf, hrest]

/-- Claim C9: the batch checker returns exactly the check results for the
prefix of URLs up to and including the first URL whose result status is
FLOOD (the whole list when there is none), and its output never depends on
URLs after that prefix — any oracle agreeing on that prefix produces the
identical (returned and persisted) result list. -/
theorem C9_flood_halts_batch (check : Str → CheckResult) (urls : List Str) :
    run_checks check urls =
      (urls.take (urls.findIdx (fun u => decide ((check u).status = toL "FLOOD")) + 1)).map
        check ∧
    ∀ check₂ : Str → CheckResult,
      (∀ u ∈ urls.take (urls.findIdx (fun u => decide ((check u).status = toL "FLOOD")) + 1),
        check₂ u = check u) →
      run_checks check₂ urls = run_checks check urls :=
  ⟨run_checks_eq_map_take check urls, fun c2 h => run_checks_agree check c2 urls h⟩

/-- Demonstration oracle: `b` is rate limited, others are online. -/
def demoCheck : Str → CheckResult := fun u =>
  if u = toL "a" then ⟨toL "ONLINE"⟩ else if u = toL "b" then ⟨toL "FLOOD"⟩
  else ⟨toL "ONLINE"⟩

/-- Second demonstration oracle, differing from `demoCheck` only after the
first FLOOD. -/
def demoCheck2 : Str → CheckResult := fun u =>
  if u = toL "a" then ⟨toL "ONLINE"⟩ else if u = toL "b" then ⟨toL "FLOOD"⟩
  else ⟨toL "ERROR"⟩

/-- Witness for C9: the batch stops right after the FLOOD on `b`, and an
oracle differing only on the never-checked `c` yields the same results. -/
theorem C9_witness :
    run_checks demoCheck [toL "a", toL "b", toL "c"] = [⟨toL "ONLINE"⟩, ⟨toL "FLOOD"⟩] ∧
    run_checks demoCheck2 [toL "a", toL "b", toL "c"] =
      run_checks demoCheck [toL "a", toL "b", toL "c"] := by
  constructor
  · exact (C9_flood_halts_batch demoCheck [toL "a", toL "b", toL "c"]).1.trans (by decide)
  · exact (C9_flood_halts_batch demoCheck [toL "a", toL "b", toL "c"]).2 demoCheck2 (by decide)

/-! ## Helper lemmas for C5 -/

theorem lexLe_refl (a : Str) : lexLe a a = true := by
  induction a with
  | nil => rfl
  | cons c t ih => simp [lexLe, ih]

theorem lexLe_total (a b : Str) : (lexLe a b || lexLe b a) = true := by
  induction a generalizing b with
  | nil => simp [lexLe]
  | cons c t ih =>
    cases b with
    | nil => simp [lexLe]
    | cons d u =>
      rcases lt_trichotomy c d with h | h | h
      · simp [lexLe, h]
      · subst h
        simpa [lexLe, lt_irrefl] using ih u
      · simp [lexLe, h, asymm h]

theorem lexLe_trans {a b c : Str} (h₁ : lexLe a b = true) (h₂ : lexLe b c = true) :
    lexLe a c = true := by
  induction a generalizing b c with
  | nil => rfl
  | cons x xs ih =>
    cases b with
    | nil => simp [lexLe] at h₁
    | cons y ys =>
      cases c with
      | nil => simp [lexLe] at h₂
      | cons z zs =>
        simp only [lexLe] at h₁ h₂ ⊢
        rcases lt_trichotomy x y with hxy | hxy | hxy
        · rcases lt_trichotomy y z with hyz | hyz | hyz
          · simp [lt_trans hxy hyz]
          · subst hyz; simp [hxy]
          · simp [hyz, asymm hyz] at h₂
        · subst hxy
          rcases lt_trichotomy x z with hxz | hxz | hxz
          · simp [hxz]
          · subst hxz
            simp only [lt_irrefl, if_false] at h₁ h₂ ⊢
            exact ih h₁ h₂
          · simp [hxz, asymm hxz] at h₂
        · simp [hxy, asymm hxy] at h₁

theorem lexLe_nil_right {a : Str} (h : lexLe a [] = true) : a = [] := by
  cases a with
  | nil => rfl
  | cons c t => simp [lexLe] at h

theorem rowLe_trans (a b c : List Str) (h₁ : rowLe a b) (h₂ : rowLe b c) : rowLe a c :=
  lexLe_trans h₁ h₂

theorem rowLe_total (a b : List Str) : rowLe a b || rowLe b a :=
  lexLe_total (mergeKey a) (mergeKey b)

/-- In a list sorted by `rowLe`, after the leading empty-key records have been
dropped, no empty-key record remains. -/
theorem emptyKey_first {S : List (List Str)}
    (hs : S.Pairwise (fun a b => rowLe a b = true)) :
    (S.dropWhile (fun r => (mergeKey r).isEmpty)).all (fun r => !(mergeKey r).isEmpty) = true := by
  induction S with
  | nil => rfl
  | cons r t ih =>
    have hr := (List.pairwise_cons.mp hs).1
    have ht := (List.pairwise_cons.mp hs).2
    by_cases h : (mergeKey r).isEmpty = true
    · have hstep : (r :: t).dropWhile (fun r => (mergeKey r).isEmpty) =
          t.dropWhile (fun r => (mergeKey r).isEmpty) := by
        simp [List.dropWhile_cons, h]
      rw [hstep]
      exact ih ht
    · have h' : (mergeKey r).isEmpty = false := by simpa using h
      have hstep : (r :: t).dropWhile (fun r => (mergeKey r).isEmpty) = r :: t := by
        simp [List.dropWhile_cons, h']
      rw [hstep]
      simp only [List.all_cons, Bool.and_eq_true]
      refine ⟨by simp [h'], ?_⟩
      rw [List.all_eq_true]
      intro x hx
      have hrx : rowLe r x = true := hr x hx
      cases hmk : mergeKey x with
      | cons a l => simp [hmk]
      | nil =>
        exfalso
        have : mergeKey r = [] := lexLe_nil_right (by rwa [rowLe, hmk] at hrx)
        simp [this] at h

/-- Stability of `merge_rows`: records with any fixed key keep their relative
order from the concatenated input. -/
theorem merge_rows_filter_key (local_rows new_rows : List (List Str)) (k : Str) :
    (merge_rows local_rows new_rows).filter (fun r => decide (mergeKey r = k)) =
      (local_rows ++ new_rows).filter (fun r => decide (mergeKey r = k)) := by
  have hc : ((local_rows ++ new_rows).filter (fun r => decide (mergeKey r = k))).Pairwise
      (fun a b => rowLe a b = true) := by
    apply List.pairwise_of_forall_mem_list
    intro a ha b hb
    have hak : mergeKey a = k := by simpa using (List.mem_filter.mp ha).2
    have hbk : mergeKey b = k := by simpa using (List.mem_filter.mp hb).2
    show lexLe (mergeKey a) (mergeKey b) = true
    rw [hak, hbk]
    exact lexLe_refl k
  have hsub : List.Sublist ((local_rows ++ new_rows).filter (fun r => decide (mergeKey r = k)))
      (merge_rows local_rows new_rows) :=
    List.sublist_mergeSort rowLe_trans rowLe_total hc
      (List.filter_sublist (local_rows ++ new_rows))
  have hidem : ((local_rows ++ new_rows).filter (fun r => decide (mergeKey r = k))).filter
      (fun r => decide (mergeKey r = k)) =
      (local_rows ++ new_rows).filter (fun r => decide (mergeKey r = k)) :=
    List.filter_eq_self.mpr (fun a ha => (List.mem_filter.mp ha).2)
  have hsub2 : List.Sublist ((local_rows ++ new_rows).filter (fun r => decide (mergeKey r = k)))
      ((merge_rows local_rows new_rows).filter (fun r => decide (mergeKey r = k))) := by
    have := hsub.filter (fun r => decide (mergeKey r = k))
    rwa [hidem] at this
  have hperm : List.Perm
      ((merge_rows local_rows new_rows).filter (fun r => decide (mergeKey r = k)))
      ((local_rows ++ new_rows).filter (fun r => decide (mergeKey r = k))) :=
    (List.mergeSort_perm (local_rows ++ new_rows) rowLe).filter _
  exact (hsub2.eq_of_length hperm.length_eq.symm).symm

/-- Claim C5: `merge_rows` (the core of `merge_upstream_entries`) returns a
permutation of the concatenation of local and new records, sorted
non-decreasingly by the lower-cased first cell (`mergeKey`), with empty-key
records first, and preserving the relative input order of records sharing a
key (stability). -/
theorem C5_merge_sort_correct (local_rows new_rows : List (List Str)) :
    (merge_rows local_rows new_rows).Perm (local_rows ++ new_rows) ∧
    (merge_rows local_rows new_rows).Pairwise (fun a b => rowLe a b = true) ∧
    ((merge_rows local_rows new_rows).dropWhile (fun r => (mergeKey r).isEmpty)).all
      (fun r => !(mergeKey r).isEmpty) = true ∧
    ∀ k : Str, (merge_rows local_rows new_rows).filter (fun r => decide (mergeKey r = k)) =
      (local_rows ++ new_rows).filter (fun r => decide (mergeKey r = k)) := by
  have hsorted : (merge_rows local_rows new_rows).Pairwise (fun a b => rowLe a b = true) :=
    List.sorted_mergeSort rowLe_trans rowLe_total (local_rows ++ new_rows)
  exact ⟨List.mergeSort_perm (local_rows ++ new_rows) rowLe, hsorted,
    emptyKey_first hsorted, merge_rows_filter_key local_rows new_rows⟩

/-! ## Helper lemmas for C6: column widths and truncation -/

theorem updateWidths_length (mw : Nat) (ws : List Nat) (row : List Str) :
    (updateWidths mw ws row).length = ws.length := by
  induction ws generalizing row with
  | nil => simp [updateWidths]
  | cons w ws ih =>
    cases row with
    | nil => simp [updateWidths]
    | cons c cs => simp [updateWidths, ih]

theorem foldl_updateWidths_length (mw : Nat) (rows : List (List Str)) (ws : List Nat) :
    (rows.foldl (updateWidths mw) ws).length = ws.length := by
  induction rows generalizing ws with
  | nil => rfl
  | cons r rs ih => rw [List.foldl_cons, ih, updateWidths_length]

theorem capWidths_length (caps ws : List Nat) : (capWidths caps ws).length = ws.length := by
  induction ws generalizing caps with
  | nil => cases caps <;> simp [capWidths]
  | cons w ws' ih =>
    cases caps with
    | nil => simp [capWidths, ih]
    | cons c cs => simp [capWidths, ih]

theorem calculate_column_widths_length (headers : List Str) (rows : List (List Str))
    (mw : Nat) : (calculate_column_widths headers rows mw).length = headers.length := by
  unfold calculate_column_widths
  rw [capWidths_length, foldl_updateWidths_length, List.length_map]

theorem updateWidths_getD_ge (mw : Nat) (ws : List Nat) (row : List Str) (i : Nat) :
    ws.getD i 0 ≤ (updateWidths mw ws row).getD i 0 := by
  induction ws generalizing row i with
  | nil => simp [updateWidths]
  | cons w ws ih =>
    cases row with
    | nil => simp [updateWidths]
    | cons c cs =>
      cases i with
      | zero => simp [updateWidths]
      | succ n =>
        simp only [updateWidths, List.getD_cons_succ]
        exact ih cs n

theorem updateWidths_getD_cell (mw : Nat) (ws : List Nat) (row : List Str) (i : Nat)
    (hi : i < ws.length) (hir : i < row.length) :
    min (row.getD i []).length mw ≤ (updateWidths mw ws row).getD i 0 := by
  induction ws generalizing row i with
  | nil => simp at hi
  | cons w ws ih =>
    cases row with
    | nil => simp at hir
    | cons c cs =>
      cases i with
      | zero => simp [updateWidths]
      | succ n =>
        simp only [updateWidths, List.getD_cons_succ]
        exact ih cs n (by simpa using hi) (by simpa using hir)

theorem foldl_updateWidths_getD_ge (mw : Nat) (rows : List (List Str)) (ws : List Nat)
    (i : Nat) : ws.getD i 0 ≤ (rows.foldl (updateWidths mw) ws).getD i 0 := by
  induction rows generalizing ws with
  | nil => exact le_refl _
  | cons r rs ih =>
    rw [List.foldl_cons]
    exact le_trans (updateWidths_getD_ge mw ws r i) (ih (updateWidths mw ws r))

theorem foldl_updateWidths_getD_cell (mw : Nat) (rows : List (List Str)) (ws : List Nat)
    (r : List Str) (hr : r ∈ rows) (i : Nat) (hi : i < ws.length) (hir : i < r.length) :
    min (r.getD i []).length mw ≤ (rows.foldl (updateWidths mw) ws).getD i 0 := by
  induction rows generalizing ws with
  | nil => cases hr
  | cons r0 rs ih =>
    rw [List.foldl_cons]
    rcases List.mem_cons.mp hr with rfl | hmem
    · exact le_trans (updateWidths_getD_cell mw ws r i hi hir)
        (foldl_updateWidths_getD_ge mw rs (updateWidths mw ws r) i)
    · exact ih (updateWidths mw ws r0) hmem (by rwa [updateWidths_length])

theorem capWidths_getD (caps ws : List Nat) (i : Nat) (hi : i < ws.length) :
    (capWidths caps ws).getD i 0 =
      match caps.get? i with
      | some cap => min (ws.getD i 0) cap
      | none => ws.getD i 0 := by
  induction ws generalizing caps i with
  | nil => simp at hi
  | cons w ws' ih =>
    cases caps with
    | nil =>
      cases i with
      | zero => simp [capWidths]
      | succ n =>
        simp only [capWidths, List.getD_cons_succ, List.get?_nil]
        simpa using ih [] n (by simpa using hi)
    | cons c cs =>
      cases i with
      | zero => simp [capWidths]
      | succ n =>
        simp only [capWidths, List.getD_cons_succ, List.get?_cons_succ]
        exact ih cs n (by simpa using hi)

/-- When the truncation branch is taken — the cell strictly longer than the
computed width — the computed width is at least 3 (in fact at least 15). -/
theorem calc_width_ge_three (headers : List Str) (rows : List (List Str)) (r : List Str)
    (hr : r ∈ rows) (i : Nat) (hih : i < headers.length) (hir : i < r.length)
    (hlong : (calculate_column_widths headers rows).getD i 0 < (r.getD i []).length) :
    3 ≤ (calculate_column_widths headers rows).getD i 0 := by
  have hpre_len : (rows.foldl (updateWidths 80) (headers.map List.length)).length =
      headers.length := by
    rw [foldl_updateWidths_length, List.length_map]
  have hpre : min (r.getD i []).length 80 ≤
      (rows.foldl (updateWidths 80) (headers.map List.length)).getD i 0 :=
    foldl_updateWidths_getD_cell 80 rows (headers.map List.length) r hr i
      (by rwa [List.length_map]) hir
  have hcap := capWidths_getD max_widths (rows.foldl (updateWidths 80) (headers.map List.length))
    i (by rwa [hpre_len])
  have hcalc : calculate_column_widths headers rows =
      capWidths max_widths (rows.foldl (updateWidths 80) (headers.map List.length)) := rfl
  rw [hcalc, hcap] at hlong ⊢
  cases hmw : max_widths.get? i with
  | none =>
    simp only [hmw] at hlong ⊢
    rcases Nat.le_total (r.getD i []).length 80 with h80 | h80
    · rw [Nat.min_eq_left h80] at hpre
      omega
    · rw [Nat.min_eq_right h80] at hpre
      omega
  | some cap =>
    have hcap15 : 15 ≤ cap := by
      have hall : ∀ c ∈ max_widths, 15 ≤ c := by decide
      exact hall cap (List.get?_mem hmw)
    simp only [hmw] at hlong ⊢
    rcases Nat.le_total ((rows.foldl (updateWidths 80) (headers.map List.length)).getD i 0)
      cap with hc | hc
    · rw [Nat.min_eq_left hc] at hlong ⊢
      rcases Nat.le_total (r.getD i []).length 80 with h80 | h80
      · rw [Nat.min_eq_left h80] at hpre
        omega
      · rw [Nat.min_eq_right h80] at hpre
        omega
    · rw [Nat.min_eq_right hc] at hlong ⊢
      omega

theorem renderCells_getD (ws : List Nat) (cs : List Str) (i : Nat)
    (hiw : i < ws.length) (hic : i < cs.length) :
    (renderCells ws cs).getD i [] = renderCell (ws.getD i 0) (cs.getD i []) := by
  induction ws generalizing cs i with
  | nil => simp at hiw
  | cons w ws' ih =>
    cases cs with
    | nil => simp at hic
    | cons c cs' =>
      cases i with
      | zero => simp [renderCells]
      | succ n =>
        simp only [renderCells, List.getD_cons_succ]
        exact ih cs' n (by simpa using hiw) (by simpa using hic)

theorem padRow_take_getD (n : Nat) (r : List Str) (i : Nat) (hi : i < r.length)
    (hin : i < n) :
    ((padRow n r).take n).getD i [] = r.getD i [] := by
  unfold padRow
  rw [List.getD_eq_getElem?_getD, List.getD_eq_getElem?_getD,
    List.getElem?_take_of_lt hin, List.getElem?_append_left hi]

theorem renderCell_of_long (w : Nat) (c : Str) (h3 : 3 ≤ w) (hl : w < c.length) :
    renderCell w c = c.take (w - 3) ++ toL "..." ∧ (renderCell w c).length = w := by
  have hlen3 : (toL "...").length = 3 := by decide
  have hslice : pySliceTo ((w : Int) - 3) c = c.take (w - 3) := by
    unfold pySliceTo
    rw [if_pos (by omega)]
    congr 1
    omega
  have hlen : (c.take (w - 3) ++ toL "...").length = w := by
    rw [List.length_append, List.length_take, hlen3, Nat.min_eq_left (by omega)]
    omega
  have hcell : renderCell w c = c.take (w - 3) ++ toL "..." := by
    unfold renderCell
    rw [if_pos (by omega), hslice]
    unfold ljust
    rw [hlen, Nat.sub_self, List.replicate_zero, List.append_nil]
  exact ⟨hcell, by rw [hcell, hlen]⟩

/-- Claim C6: under beautified rendering, a cell strictly longer than its
column's computed width is rendered as its first `width - 3` characters
followed by the three-character marker `"..."`, and the rendered cell's
length equals the computed width (which is itself at least 3). -/
theorem C6_truncation (headers : List Str) (rows : List (List Str)) (r : List Str)
    (hr : r ∈ rows) (i : Nat) (hih : i < headers.length) (hir : i < r.length)
    (hlong : (calculate_column_widths headers rows).getD i 0 < (r.getD i []).length) :
    (renderCells (calculate_column_widths headers rows)
        ((padRow headers.length r).take headers.length)).getD i [] =
      (r.getD i []).take ((calculate_column_widths headers rows).getD i 0 - 3) ++ toL "..." ∧
    ((renderCells (calculate_column_widths headers rows)
        ((padRow headers.length r).take headers.length)).getD i []).length =
      (calculate_column_widths headers rows).getD i 0 ∧
    3 ≤ (calculate_column_widths headers rows).getD i 0 := by
  have h3 : 3 ≤ (calculate_column_widths headers rows).getD i 0 :=
    calc_width_ge_three headers rows r hr i hih hir hlong
  have hcells_len : ((padRow headers.length r).take headers.length).length = headers.length := by
    rw [List.length_take, padRow, List.length_append, List.length_replicate]
    omega
  rw [renderCells_getD _ _ i (by rw [calculate_column_widths_length]; exact hih)
      (by rw [hcells_len]; exact hih),
    padRow_take_getD headers.length r i hir hih]
  have hrc := renderCell_of_long ((calculate_column_widths headers rows).getD i 0)
    (r.getD i []) h3 hlong
  exact ⟨hrc.1, hrc.2, h3⟩

/-- Witness for C6: a 70-character cell in a column capped at 60 is rendered
as its first 57 characters plus `"..."`, 60 characters in total. -/
theorem C6_witness :
    (renderCells (calculate_column_widths [toL "Name"] [[List.replicate 70 'a']])
        ((padRow (List.length [toL "Name"]) (List.replicate 70 'a' :: [])).take
          (List.length [toL "Name"]))).getD 0 [] =
      ((List.replicate 70 'a' :: []).getD 0 []).take
        ((calculate_column_widths [toL "Name"] [[List.replicate 70 'a']]).getD 0 0 - 3) ++
        toL "..." ∧
    ((renderCells (calculate_column_widths [toL "Name"] [[List.replicate 70 'a']])
        ((padRow (List.length [toL "Name"]) (List.replicate 70 'a' :: [])).take
          (List.length [toL "Name"]))).getD 0 []).length =
      (calculate_column_widths [toL "Name"] [[List.replicate 70 'a']]).getD 0 0 ∧
    3 ≤ (calculate_column_widths [toL "Name"] [[List.replicate 70 'a']]).getD 0 0 :=
  C6_truncation [toL "Name"] [[List.replicate 70 'a']] (List.replicate 70 'a' :: [])
    (List.mem_singleton.mpr rfl) 0 (by decide) (by simp) (by decide)

/-! ## Helper lemmas for C10: the in-place mutation of `rows` -/

theorem padRow_length (n : Nat) (r : List Str) : (padRow n r).length = max r.length n := by
  simp only [padRow, List.length_append, List.length_replicate]
  omega

theorem getD_map_rows (f : List Str → List Str) (l : List (List Str)) (i : Nat)
    (hi : i < l.length) : (l.map f).getD i [] = f (l.getD i []) := by
  rw [List.getD_eq_getElem?_getD, List.getD_eq_getElem?_getD, List.getElem?_map,
    List.getElem?_eq_getElem hi]
  rfl

theorem pyGet_natCast (row : List Str) (k : Nat) : pyGet row (k : Int) = row.getD k [] := by
  unfold pyGet
  rw [if_pos (by omega)]
  simp

theorem pySet_natCast (row : List Str) (k : Nat) (v : Str) :
    pySet row (k : Int) v = row.set k v := by
  unfold pySet
  rw [if_pos (by omega)]
  simp

theorem padRow_getD_lt (n : Nat) (r : List Str) (k : Nat) (hk : k < r.length) :
    (padRow n r).getD k [] = r.getD k [] := by
  unfold padRow
  rw [List.getD_eq_getElem?_getD, List.getD_eq_getElem?_getD, List.getElem?_append_left hk]

theorem padRow_getD_pad (n : Nat) (r : List Str) (k : Nat) (hk1 : r.length ≤ k)
    (hk2 : k < n) : (padRow n r).getD k [] = [] := by
  unfold padRow
  rw [List.getD_eq_getElem?_getD, List.getElem?_append_right hk1, List.getElem?_replicate,
    if_pos (by omega)]
  rfl

theorem set_getD_self (r : List Str) (k : Nat) (v : Str) (hk : k < r.length) :
    (r.set k v).getD k [] = v := by
  rw [List.getD_eq_getElem?_getD, List.getElem?_set_self hk]
  rfl

theorem find_status_column_spec (headers : List Str) (h : find_status_column headers ≠ -1) :
    ∃ k : Nat, find_status_column headers = (k : Int) ∧ k < headers.length := by
  unfold find_status_column at h ⊢
  cases hidx : headers.findIdx? (fun h => lowerP h = toL "status") with
  | none => rw [hidx] at h; simp at h
  | some i =>
    exact ⟨i, rfl, (List.findIdx?_eq_some_iff_findIdx_eq.mp hidx).1⟩

/-- Effect of the decoration pass followed by padding on the status cell:
the final status cell is the decoration of the padded row's status cell
(an `add_status_emoji` of the original cell when the row reaches the status
column, and of the padded empty cell — a fixed point — otherwise). -/
theorem padRow_decorateRow_pyGet (n : Nat) (r : List Str) (k : Nat) (hk : k < n) :
    pyGet (padRow n (decorateRow (k : Int) r)) (k : Int) =
      add_status_emoji (pyGet (padRow n r) (k : Int)) := by
  rw [pyGet_natCast, pyGet_natCast]
  by_cases hkr : k < r.length
  · have hcond : (k : Int) < (r.length : Int) := by exact_mod_cast hkr
    unfold decorateRow
    rw [if_pos hcond, pySet_natCast, pyGet_natCast,
      padRow_getD_lt n _ k (by rw [List.length_set]; exact hkr),
      set_getD_self r k _ hkr, padRow_getD_lt n r k hkr]
  · have hcond : ¬ ((k : Int) < (r.length : Int)) := by exact_mod_cast hkr
    unfold decorateRow
    rw [if_neg hcond, padRow_getD_pad n r k (by omega) hk]
    exact (by decide : add_status_emoji [] = []).symm

/-- The final state of the `rows` argument of `rebuild_markdown_table` on a
non-empty record list: every row decorated (when applicable) and padded. -/
theorem rebuildFull_snd (headers : List Str) (rows : List (List Str)) (before after : Str)
    (beautify add_emoji : Bool) (h : rows ≠ []) :
    (rebuildFull headers rows before after beautify add_emoji).2 =
      (if add_emoji && decide (find_status_column headers ≠ -1)
        then rows.map (decorateRow (find_status_column headers))
        else rows).map (padRow headers.length) := by
  unfold rebuildFull rebuildRows2 rebuildRows1
  rw [if_neg (by simpa using h)]

/-- Claim C10, counterexample: a non-empty record list already as wide as the
headers and without a decoratable status column is left entirely unchanged by
`rebuild_markdown_table`, so "the input record list is not left unchanged"
fails as a universal statement. -/
theorem C10_counterexample :
    (rebuildFull [toL "Name"] [[toL "x"]] [] [] true true).2 = [[toL "x"]] := by
  decide

/-- Claim C10 as amended: after `rebuild_markdown_table` on a non-empty record
list, the caller's list holds exactly the processed rows — each row decorated
at the status column (when emoji decoration is enabled and a status column
exists) and padded with empty cells up to the header count (so each final row
has at least `headers.length` cells); in particular the final status cell is
the `add_status_emoji` of the padded original status cell.  The list is
mutated to this form but is NOT changed for inputs already in this form. -/
theorem C10_rebuildRows_amended (headers : List Str) (rows : List (List Str))
    (before after : Str) (beautify add_emoji : Bool) (h : rows ≠ []) :
    (rebuildFull headers rows before after beautify add_emoji).2.length = rows.length ∧
    (∀ i, i < rows.length →
      (rebuildFull headers rows before after beautify add_emoji).2.getD i [] =
        padRow headers.length
          (if add_emoji && decide (find_status_column headers ≠ -1)
            then decorateRow (find_status_column headers) (rows.getD i [])
            else rows.getD i []) ∧
      headers.length ≤
        ((rebuildFull headers rows before after beautify add_emoji).2.getD i []).length) ∧
    (add_emoji = true → find_status_column headers ≠ -1 →
      ∀ i, i < rows.length →
        pyGet ((rebuildFull headers rows before after beautify add_emoji).2.getD i [])
            (find_status_column headers) =
          add_status_emoji (pyGet (padRow headers.length (rows.getD i []))
            (find_status_column headers))) := by
  have hsnd := rebuildFull_snd headers rows before after beautify add_emoji h
  have hgetD : ∀ i, i < rows.length →
      (rebuildFull headers rows before after beautify add_emoji).2.getD i [] =
        padRow headers.length
          (if add_emoji && decide (find_status_column headers ≠ -1)
            then decorateRow (find_status_column headers) (rows.getD i [])
            else rows.getD i []) := by
    intro i hi
    rw [hsnd]
    by_cases hcond : (add_emoji && decide (find_status_column headers ≠ -1)) = true
    · rw [if_pos hcond, if_pos hcond,
        getD_map_rows _ _ i (by rw [List.length_map]; exact hi),
        getD_map_rows _ _ i hi]
    · rw [if_neg hcond, if_neg hcond, getD_map_rows _ _ i hi]
  refine ⟨?_, fun i hi => ⟨hgetD i hi, ?_⟩, ?_⟩
  · rw [hsnd, List.length_map]
    by_cases hcond : (add_emoji && decide (find_status_column headers ≠ -1)) = true
    · rw [if_pos hcond, List.length_map]
    · rw [if_neg hcond]
  · rw [hgetD i hi, padRow_length]
    exact le_max_right _ _
  · intro hemoji hsc i hi
    obtain ⟨k, hk_eq, hk_lt⟩ := find_status_column_spec headers hsc
    rw [hgetD i hi, if_pos (by rw [hemoji]; simp [hsc]), hk_eq]
    exact padRow_decorateRow_pyGet headers.length (rows.getD i []) k hk_lt

/-- Witness for C10 on a concrete one-cell record under two headers: the
record is padded to two cells and its (empty, padded) status cell is the
fixed point of decoration. -/
theorem C10_witness :
    (rebuildFull [toL "Name", toL "Status"] [[toL "foo"]] [] [] true true).2.getD 0 [] =
      padRow 2
        (if (true && decide (find_status_column [toL "Name", toL "Status"] ≠ -1))
          then decorateRow (find_status_column [toL "Name", toL "Status"]) [toL "foo"]
          else [toL "foo"]) ∧
    pyGet ((rebuildFull [toL "Name", toL "Status"] [[toL "foo"]] [] [] true true).2.getD 0 [])
        (find_status_column [toL "Name", toL "Status"]) =
      add_status_emoji (pyGet (padRow 2 [toL "foo"])
        (find_status_column [toL "Name", toL "Status"])) := by
  have h := C10_rebuildRows_amended [toL "Name", toL "Status"] [[toL "foo"]] [] [] true true
    (by decide)
  exact ⟨(h.2.1 0 (by decide)).1, h.2.2 rfl (by decide) 0 (by decide)⟩

/-! ## Helper lemmas for C1: split / join algebra -/

theorem splitOnChar_nil (sep : Char) : splitOnChar sep [] = [[]] := rfl

theorem splitOnChar_cons_sep (sep : Char) (rest : Str) :
    splitOnChar sep (sep :: rest) = [] :: splitOnChar sep rest := by
  simp [splitOnChar]

theorem splitOnChar_cons_ne (sep c : Char) (h : c ≠ sep) (rest : Str) :
    splitOnChar sep (c :: rest) =
      match splitOnChar sep rest with
      | [] => [[c]]
      | h0 :: t0 => (c :: h0) :: t0 := by
  simp [splitOnChar, h]

theorem splitOnChar_ne_nil (sep : Char) (s : Str) : splitOnChar sep s ≠ [] := by
  cases s with
  | nil => simp [splitOnChar_nil]
  | cons c rest =>
    by_cases h : c = sep
    · subst h
      rw [splitOnChar_cons_sep]
      simp
    · rw [splitOnChar_cons_ne sep c h]
      cases hs : splitOnChar sep rest with
      | nil => simp
      | cons h0 t0 => simp

theorem splitOnChar_cons_ne' (sep c : Char) (h : c ≠ sep) (rest : Str) (h0 : Str)
    (t0 : List Str) (hs : splitOnChar sep rest = h0 :: t0) :
    splitOnChar sep (c :: rest) = (c :: h0) :: t0 := by
  rw [splitOnChar_cons_ne sep c h, hs]

theorem splitOnChar_of_not_mem (sep : Char) (s : Str) (h : ¬ sep ∈ s) :
    splitOnChar sep s = [s] := by
  induction s with
  | nil => rfl
  | cons c rest ih =>
    have hc : c ≠ sep := fun hc => h (hc ▸ List.mem_cons_self c rest)
    have hrest := ih (fun hm => h (List.mem_cons_of_mem c hm))
    rw [splitOnChar_cons_ne' sep c hc rest rest [] hrest]

theorem splitOnChar_sep_append (sep : Char) (a b : Str) :
    splitOnChar sep (a ++ sep :: b) = splitOnChar sep a ++ splitOnChar sep b := by
  induction a with
  | nil => simp [splitOnChar_cons_sep, splitOnChar_nil]
  | cons c a' ih =>
    rw [List.cons_append]
    by_cases h : c = sep
    · subst h
      rw [splitOnChar_cons_sep, splitOnChar_cons_sep, ih, List.cons_append]
    · cases hs : splitOnChar sep a' with
      | nil => exact absurd hs (splitOnChar_ne_nil sep a')
      | cons h0 t0 =>
        have hs2 : splitOnChar sep (a' ++ sep :: b) = h0 :: (t0 ++ splitOnChar sep b) := by
          rw [ih, hs]
          rfl
        rw [splitOnChar_cons_ne' sep c h _ _ _ hs2, splitOnChar_cons_ne' sep c h _ _ _ hs]
        rfl

theorem mem_of_mem_splitOnChar (sep : Char) (s : Str) (piece : Str)
    (hp : piece ∈ splitOnChar sep s) (c : Char) (hc : c ∈ piece) : c ∈ s := by
  induction s generalizing piece with
  | nil =>
    rw [splitOnChar_nil] at hp
    simp at hp
    subst hp
    cases hc
  | cons x rest ih =>
    by_cases h : x = sep
    · subst h
      rw [splitOnChar_cons_sep] at hp
      rcases List.mem_cons.mp hp with rfl | hmem
      · cases hc
      · exact List.mem_cons_of_mem x (ih piece hmem hc)
    · cases hs : splitOnChar sep rest with
      | nil => exact absurd hs (splitOnChar_ne_nil sep rest)
      | cons h0 t0 =>
        rw [splitOnChar_cons_ne' sep x h rest h0 t0 hs] at hp
        rcases List.mem_cons.mp hp with rfl | hmem
        · rcases List.mem_cons.mp hc with rfl | hcm
          · exact List.mem_cons_self _ _
          · exact List.mem_cons_of_mem x (ih h0 (hs ▸ List.mem_cons_self h0 t0) hcm)
        · exact List.mem_cons_of_mem x (ih piece (hs ▸ List.mem_cons_of_mem h0 hmem) hc)

theorem not_mem_of_mem_splitOnChar (sep : Char) (s : Str) (piece : Str)
    (hp : piece ∈ splitOnChar sep s) : ¬ sep ∈ piece := by
  induction s generalizing piece with
  | nil =>
    rw [splitOnChar_nil] at hp
    simp at hp
    subst hp
    simp
  | cons x rest ih =>
    by_cases h : x = sep
    · subst h
      rw [splitOnChar_cons_sep] at hp
      rcases List.mem_cons.mp hp with rfl | hmem
      · simp
      · exact ih piece hmem
    · cases hs : splitOnChar sep rest with
      | nil => exact absurd hs (splitOnChar_ne_nil sep rest)
      | cons h0 t0 =>
        rw [splitOnChar_cons_ne' sep x h rest h0 t0 hs] at hp
        rcases List.mem_cons.mp hp with rfl | hmem
        · intro hmem2
          rcases List.mem_cons.mp hmem2 with rfl | hmem3
          · exact h rfl
          · exact ih h0 (hs ▸ List.mem_cons_self h0 t0) hmem3
        · exact ih piece (hs ▸ List.mem_cons_of_mem h0 hmem)

theorem joinSep_cons_cons (sep : Str) (x y : Str) (t : List Str) :
    joinSep sep (x :: y :: t) = x ++ sep ++ joinSep sep (y :: t) := rfl

theorem joinSep_append (sep : Char) (xs ys : List Str) (hxs : xs ≠ []) (hys : ys ≠ []) :
    joinSep [sep] (xs ++ ys) = joinSep [sep] xs ++ sep :: joinSep [sep] ys := by
  induction xs with
  | nil => exact absurd rfl hxs
  | cons x xs' ih =>
    cases xs' with
    | nil =>
      cases ys with
      | nil => exact absurd rfl hys
      | cons y t => simp [joinSep]
    | cons x2 t2 =>
      have hiha := ih (by simp)
      rw [List.cons_append] at hiha
      rw [List.cons_append, List.cons_append, joinSep_cons_cons, joinSep_cons_cons, hiha]
      simp [List.append_assoc]

theorem joinSep_splitOnChar (sep : Char) (s : Str) :
    joinSep [sep] (splitOnChar sep s) = s := by
  induction s with
  | nil => rfl
  | cons c rest ih =>
    by_cases h : c = sep
    · rw [h, splitOnChar_cons_sep]
      cases hs : splitOnChar sep rest with
      | nil => exact absurd hs (splitOnChar_ne_nil sep rest)
      | cons h0 t0 =>
        rw [hs] at ih
        rw [joinSep_cons_cons, ih]
        rfl
    · cases hs : splitOnChar sep rest with
      | nil => exact absurd hs (splitOnChar_ne_nil sep rest)
      | cons h0 t0 =>
        rw [splitOnChar_cons_ne' sep c h rest h0 t0 hs]
        rw [hs] at ih
        cases t0 with
        | nil =>
          simp only [joinSep] at ih ⊢
          rw [ih]
        | cons y t =>
          rw [joinSep_cons_cons]
          rw [joinSep_cons_cons] at ih
          simp only [List.cons_append, List.append_assoc] at ih ⊢
          rw [ih]

theorem splitOnChar_joinSep (sep : Char) (ps : List Str) (hne : ps ≠ [])
    (h : ∀ piece ∈ ps, ¬ sep ∈ piece) :
    splitOnChar sep (joinSep [sep] ps) = ps := by
  induction ps with
  | nil => exact absurd rfl hne
  | cons x t ih =>
    cases t with
    | nil => exact splitOnChar_of_not_mem sep x (h x (by simp))
    | cons y t' =>
      rw [joinSep_cons_cons, List.append_assoc, List.singleton_append,
        splitOnChar_sep_append, splitOnChar_of_not_mem sep x (h x (by simp)),
        ih (by simp) (fun piece hp => h piece (List.mem_cons_of_mem x hp))]
      rfl

/-! ## Helper lemmas for C1: stripping -/

theorem stripP_nil : stripP [] = [] := rfl

theorem lstripP_cons_of_not_space (c : Char) (t : Str) (h : pyIsSpace c = false) :
    lstripP (c :: t) = c :: t := by
  simp [lstripP, List.dropWhile_cons, h]

theorem lstripP_append_of_space (a b : Str) (h : ∀ c ∈ a, pyIsSpace c) :
    lstripP (a ++ b) = lstripP b :=
  List.dropWhile_append_of_pos h

theorem rstripP_append_of_space (a b : Str) (h : ∀ c ∈ b, pyIsSpace c) :
    rstripP (a ++ b) = rstripP a := by
  unfold rstripP
  rw [List.reverse_append,
    List.dropWhile_append_of_pos (fun x hx => h x (List.mem_reverse.mp hx))]

theorem rstripP_cons_of_not_space (c : Char) (t : Str) (h : pyIsSpace c = false) :
    rstripP (c :: t) = c :: rstripP t := by
  unfold rstripP
  rw [List.reverse_cons, List.dropWhile_append]
  by_cases he : (t.reverse.dropWhile pyIsSpace).isEmpty = true
  · rw [if_pos he, List.isEmpty_iff.mp he]
    simp [List.dropWhile_cons, h]
  · rw [if_neg he, List.reverse_append]
    rfl

theorem rstripP_append_keep (a c : Str) (hc : rstripP c = c) (hne : c ≠ []) :
    rstripP (a ++ c) = a ++ c := by
  have hcne : (c.reverse.dropWhile pyIsSpace).isEmpty = false := by
    cases hx : c.reverse.dropWhile pyIsSpace with
    | nil =>
      exfalso
      apply hne
      rw [← hc]
      unfold rstripP
      rw [hx]
      rfl
    | cons x xs => rfl
  unfold rstripP
  rw [List.reverse_append, List.dropWhile_append, hcne, if_neg (by simp),
    List.reverse_append, List.reverse_reverse]
  show a ++ (c.reverse.dropWhile pyIsSpace).reverse = a ++ c
  rw [show (c.reverse.dropWhile pyIsSpace).reverse = c from hc]

theorem length_dropWhile_le' (p : Char → Bool) (l : Str) :
    (l.dropWhile p).length ≤ l.length :=
  (List.dropWhile_sublist p).length_le

theorem lstripP_append_keep (c a : Str) (hc : lstripP c = c) (hne : c ≠ []) :
    lstripP (c ++ a) = c ++ a := by
  cases c with
  | nil => exact absurd rfl hne
  | cons x xs =>
    have hx : pyIsSpace x = false := by
      by_cases hxx : pyIsSpace x = true
      · exfalso
        unfold lstripP at hc
        rw [List.dropWhile_cons, if_pos hxx] at hc
        have hlen := length_dropWhile_le' pyIsSpace xs
        rw [hc] at hlen
        simp at hlen
      · simpa using hxx
    rw [List.cons_append]
    exact lstripP_cons_of_not_space x (xs ++ a) hx

theorem stripP_eq_self_split (c : Str) (h : stripP c = c) :
    lstripP c = c ∧ rstripP c = c := by
  have hrsub : List.Sublist (rstripP c) c := by
    have := (List.dropWhile_sublist (l := c.reverse) pyIsSpace).reverse
    rwa [List.reverse_reverse] at this
  have h1 : (rstripP c).length ≤ c.length := hrsub.length_le
  have h2 : (lstripP (rstripP c)).length ≤ (rstripP c).length :=
    length_dropWhile_le' pyIsSpace (rstripP c)
  have hlen : c.length ≤ (rstripP c).length := by
    have h2' : (stripP c).length ≤ (rstripP c).length := h2
    rwa [h] at h2'
  have hr : rstripP c = c := hrsub.eq_of_length (le_antisymm h1 hlen)
  refine ⟨?_, hr⟩
  have : lstripP c = stripP c := by
    unfold stripP
    rw [hr]
  rw [this, h]

theorem stripP_pad (ws1 mid ws2 : Str) (h1 : ∀ x ∈ ws1, pyIsSpace x)
    (h2 : ∀ x ∈ ws2, pyIsSpace x) (hmid : stripP mid = mid) :
    stripP (ws1 ++ mid ++ ws2) = mid := by
  obtain ⟨hl, hr⟩ := stripP_eq_self_split mid hmid
  by_cases hm : mid = []
  · subst hm
    unfold stripP
    rw [List.append_nil]
    rw [show ws1 ++ ws2 = ([] : Str) ++ (ws1 ++ ws2) from rfl,
      rstripP_append_of_space [] (ws1 ++ ws2)
        (by intro x hx; rcases List.mem_append.mp hx with h | h; exacts [h1 x h, h2 x h])]
    rfl
  · unfold stripP
    rw [rstripP_append_of_space (ws1 ++ mid) ws2 h2,
      rstripP_append_keep ws1 mid hr hm,
      lstripP_append_of_space ws1 mid h1, hl]

/-! ## Helper lemmas for C1: membership vs stripping -/

theorem mem_dropWhile_of_mem (p : Char → Bool) (l : Str) (c : Char) (hc : c ∈ l)
    (hpc : p c = false) : c ∈ l.dropWhile p := by
  induction l with
  | nil => cases hc
  | cons x t ih =>
    rw [List.dropWhile_cons]
    by_cases hx : p x = true
    · rw [if_pos hx]
      rcases List.mem_cons.mp hc with rfl | hm
      · rw [hpc] at hx
        cases hx
      · exact ih hm
    · rw [if_neg hx]
      exact hc

theorem mem_stripP_iff (c : Char) (hc : pyIsSpace c = false) (l : Str) :
    c ∈ stripP l ↔ c ∈ l := by
  constructor
  · intro h
    have h2 : List.Sublist (stripP l) (rstripP l) := List.dropWhile_sublist _
    have h1 : List.Sublist (rstripP l) l := by
      have := (List.dropWhile_sublist (l := l.reverse) pyIsSpace).reverse
      rwa [List.reverse_reverse] at this
    exact (h2.trans h1).subset h
  · intro h
    have hr : c ∈ rstripP l := by
      unfold rstripP
      rw [List.mem_reverse]
      exact mem_dropWhile_of_mem pyIsSpace l.reverse c (List.mem_reverse.mpr h) hc
    exact mem_dropWhile_of_mem pyIsSpace (rstripP l) c hr hc

theorem hasBar_stripP (l : Str) : hasBar (stripP l) = hasBar l := by
  unfold hasBar
  simp only [List.contains, List.elem_eq_mem]
  rw [decide_eq_decide]
  exact mem_stripP_iff '|' (by decide) l

/-! ## Helper lemmas for C1: rendered table lines as `joinSep` over `'|'` -/

theorem rowLine_as_joinSep (X : List Str) (hne : X ≠ []) :
    rowLine X = joinSep ['|'] ([] :: (X.map (fun x => ' ' :: (x ++ [' ']))) ++ [[]]) := by
  induction X with
  | nil => exact absurd rfl hne
  | cons x X' ih =>
    cases X' with
    | nil => simp [rowLine, joinSep, toL]
    | cons y Y =>
      have ihy := ih (by simp)
      rw [List.map_cons, List.map_cons, List.cons_append, List.cons_append, List.cons_append,
        joinSep_cons_cons, joinSep_cons_cons]
      rw [List.map_cons, List.cons_append, List.cons_append, joinSep_cons_cons] at ihy
      unfold rowLine at ihy ⊢
      rw [joinSep_cons_cons]
      rw [show toL "| " = ['|', ' '] from rfl, show toL " | " = [' ', '|', ' '] from rfl,
        show toL " |" = [' ', '|'] from rfl] at ihy ⊢
      simp only [List.cons_append, List.nil_append, List.append_assoc,
        List.singleton_append] at ihy ⊢
      rw [← ihy]

theorem splitOnChar_rowLine (X : List Str) (hne : X ≠ []) (hX : ∀ x ∈ X, ¬ '|' ∈ x) :
    splitOnChar '|' (rowLine X) = [] :: (X.map (fun x => ' ' :: (x ++ [' ']))) ++ [[]] := by
  rw [rowLine_as_joinSep X hne]
  apply splitOnChar_joinSep
  · simp
  · intro piece hp
    rcases List.mem_cons.mp hp with rfl | hp2
    · simp
    · rcases List.mem_append.mp hp2 with hp3 | hp3
      · obtain ⟨x, hx, rfl⟩ := List.mem_map.mp hp3
        intro hm
        rcases List.mem_cons.mp hm with hbad | hm2
        · cases hbad
        · rcases List.mem_append.mp hm2 with hm3 | hm3
          · exact hX x hx hm3
          · simp at hm3
      · simp at hp3
        subst hp3
        simp

theorem hasBar_rowLine (X : List Str) : hasBar (rowLine X) = true := by
  unfold hasBar rowLine
  simp [toL]

/-! ## Helper lemmas for C1: round trip of one rendered line -/

theorem stripP_ne_nil_of_head (c : Char) (t : Str) (h : pyIsSpace c = false) :
    stripP (c :: t) ≠ [] := by
  unfold stripP
  rw [rstripP_cons_of_not_space c t h, lstripP_cons_of_not_space c _ h]
  simp

theorem renderCells_eq_of_fit (ws : List Nat) (cs : List Str)
    (hfit : List.Forall₂ (fun (w : Nat) (c : Str) => c.length ≤ w) ws cs) :
    renderCells ws cs = List.zipWith ljust ws cs := by
  induction hfit with
  | nil => rfl
  | @cons w c ws' cs' hwc htail ih =>
    show renderCell w c :: renderCells ws' cs' = ljust w c :: List.zipWith ljust ws' cs'
    rw [ih]
    unfold renderCell
    rw [if_neg (by omega)]

theorem headerCells_eq_of_length (ws : List Nat) (hs : List Str)
    (hlen : hs.length = ws.length) :
    headerCells ws hs = List.zipWith ljust ws hs := by
  induction ws generalizing hs with
  | nil =>
    cases hs with
    | nil => rfl
    | cons h t => simp at hlen
  | cons w ws' ih =>
    cases hs with
    | nil => simp at hlen
    | cons h t =>
      show ljust w h :: headerCells ws' t = ljust w h :: List.zipWith ljust ws' t
      rw [ih t (by simpa using hlen)]

theorem strip_piece_of_ljust (w : Nat) (c : Str) (hc : stripP c = c) :
    stripP (' ' :: (ljust w c ++ [' '])) = c := by
  have hshape : (' ' :: (ljust w c ++ [' '])) =
      [' '] ++ c ++ (List.replicate (w - c.length) ' ' ++ [' ']) := by
    simp [ljust, List.append_assoc]
  rw [hshape]
  apply stripP_pad
  · intro x hx
    simp at hx
    subst hx
    rfl
  · intro x hx
    rcases List.mem_append.mp hx with h | h
    · rw [List.eq_of_mem_replicate h]
      rfl
    · simp at h
      subst h
      rfl
  · exact hc

theorem map_strip_pieces (ws : List Nat) (cs : List Str)
    (hfit : List.Forall₂ (fun (w : Nat) (c : Str) => c.length ≤ w) ws cs)
    (htrim : ∀ c ∈ cs, stripP c = c) :
    (List.zipWith ljust ws cs).map (fun x => stripP (' ' :: (x ++ [' ']))) = cs := by
  induction hfit with
  | nil => rfl
  | @cons w c ws' cs' hwc htail ih =>
    rw [List.zipWith_cons_cons, List.map_cons,
      strip_piece_of_ljust w c (htrim c (by simp)),
      ih (fun x hx => htrim x (List.mem_cons_of_mem c hx))]

theorem ljust_not_mem (d : Char) (w : Nat) (c : Str) (hd : ¬ d ∈ c) (hsp : d ≠ ' ') :
    ¬ d ∈ ljust w c := by
  intro hm
  rcases List.mem_append.mp hm with h | h
  · exact hd h
  · exact hsp (List.eq_of_mem_replicate h)

theorem zipWith_ljust_char_free (d : Char) (ws : List Nat) (cs : List Str)
    (hcs : ∀ c ∈ cs, ¬ d ∈ c) (hsp : d ≠ ' ') :
    ∀ x ∈ List.zipWith ljust ws cs, ¬ d ∈ x := by
  induction ws generalizing cs with
  | nil =>
    intro x hx
    simp at hx
  | cons w ws' ih =>
    cases cs with
    | nil =>
      intro x hx
      simp at hx
    | cons c cs' =>
      intro x hx
      rcases List.mem_cons.mp hx with rfl | hx2
      · exact ljust_not_mem d w c (hcs c (by simp)) hsp
      · exact ih cs' (fun z hz => hcs z (List.mem_cons_of_mem c hz)) x hx2

theorem not_mem_joinSep (d : Char) (sep : Str) (X : List Str) (hsep : ¬ d ∈ sep)
    (hX : ∀ x ∈ X, ¬ d ∈ x) : ¬ d ∈ joinSep sep X := by
  induction X with
  | nil => simp [joinSep]
  | cons x t ih =>
    cases t with
    | nil => exact hX x (by simp)
    | cons y t' =>
      rw [joinSep_cons_cons]
      intro hm
      rcases List.mem_append.mp hm with h | h
      · rcases List.mem_append.mp h with h2 | h2
        · exact hX x (by simp) h2
        · exact hsep h2
      · exact ih (fun z hz => hX z (List.mem_cons_of_mem x hz)) h

theorem not_mem_rowLine (d : Char) (X : List Str) (hd1 : d ≠ '|') (hd2 : d ≠ ' ')
    (hX : ∀ x ∈ X, ¬ d ∈ x) : ¬ d ∈ rowLine X := by
  unfold rowLine
  intro hm
  rcases List.mem_append.mp hm with h | h
  · rcases List.mem_append.mp h with h2 | h2
    · rcases List.mem_cons.mp h2 with h3 | h3
      · exact hd1 h3
      · simp at h3
        exact hd2 h3
    · refine not_mem_joinSep d (toL " | ") X ?_ hX h2
      intro hm2
      rcases List.mem_cons.mp hm2 with h3 | h3
      · exact hd2 h3
      · rcases List.mem_cons.mp h3 with h4 | h4
        · exact hd1 h4
        · simp at h4
          exact hd2 h4
  · rcases List.mem_cons.mp h with h3 | h3
    · exact hd2 h3
    · simp at h3
      exact hd1 h3

/-- A rendered beautified data row parses back to exactly its cell list. -/
theorem parseRowLine_rendered (ws : List Nat) (cs : List Str)
    (hfit : List.Forall₂ (fun (w : Nat) (c : Str) => c.length ≤ w) ws cs)
    (htrim : ∀ c ∈ cs, stripP c = c) (hbar : ∀ c ∈ cs, ¬ '|' ∈ c) (hne : cs ≠ []) :
    parseRowLine (rowLine (renderCells ws cs)) = some cs := by
  rw [renderCells_eq_of_fit ws cs hfit]
  have hXne : List.zipWith ljust ws cs ≠ [] := by
    intro h0
    apply hne
    have hlen := congrArg List.length h0
    rw [List.length_zipWith, hfit.length_eq, Nat.min_self] at hlen
    exact List.eq_nil_of_length_eq_zero hlen
  have hXbar : ∀ x ∈ List.zipWith ljust ws cs, ¬ '|' ∈ x :=
    zipWith_ljust_char_free '|' ws cs hbar (by decide)
  have hblank : (stripP (rowLine (List.zipWith ljust ws cs))).isEmpty ≠ true := by
    have hshape : rowLine (List.zipWith ljust ws cs) =
        '|' :: (' ' :: (joinSep (toL " | ") (List.zipWith ljust ws cs) ++ toL " |")) := by
      unfold rowLine
      simp [toL]
    rw [hshape]
    intro habs
    exact stripP_ne_nil_of_head '|' _ (by decide) (List.isEmpty_iff.mp habs)
  have hpieces : ((([] : Str) :: ((List.zipWith ljust ws cs).map
        (fun x => ' ' :: (x ++ [' '])))) ++ [([] : Str)]).map stripP
      = [] :: (cs ++ [[]]) := by
    rw [List.map_append, List.map_cons, List.map_map]
    have hmid : (List.zipWith ljust ws cs).map
        (stripP ∘ fun x => ' ' :: (x ++ [' '])) = cs := map_strip_pieces ws cs hfit htrim
    rw [hmid]
    simp [stripP_nil]
  unfold parseRowLine
  rw [if_neg hblank, splitOnChar_rowLine _ hXne hXbar, hpieces]
  have hdf : dropFirstEmpty ([] :: (cs ++ [[]])) = cs ++ [[]] := rfl
  have hdl : dropLastEmpty (cs ++ [([] : Str)]) = cs := by
    unfold dropLastEmpty
    rw [if_pos (by rw [List.getLast?_concat]), List.dropLast_concat]
  rw [hdf, hdl, if_neg (by simpa using hne)]

/-- A rendered beautified header line parses back to exactly the header list. -/
theorem parseHeaderLine_rendered (ws : List Nat) (hs : List Str)
    (hlen : hs.length = ws.length)
    (hfit : List.Forall₂ (fun (w : Nat) (c : Str) => c.length ≤ w) ws hs)
    (htrim : ∀ h ∈ hs, stripP h = h) (hbar : ∀ h ∈ hs, ¬ '|' ∈ h)
    (hnempty : ∀ h ∈ hs, h ≠ []) (hne : hs ≠ []) :
    parseHeaderLine (rowLine (headerCells ws hs)) = hs := by
  rw [headerCells_eq_of_length ws hs hlen]
  have hXne : List.zipWith ljust ws hs ≠ [] := by
    intro h0
    apply hne
    have hl := congrArg List.length h0
    rw [List.length_zipWith, ← hlen, Nat.min_self] at hl
    exact List.eq_nil_of_length_eq_zero hl
  have hXbar : ∀ x ∈ List.zipWith ljust ws hs, ¬ '|' ∈ x :=
    zipWith_ljust_char_free '|' ws hs hbar (by decide)
  have hpieces : ((([] : Str) :: ((List.zipWith ljust ws hs).map
        (fun x => ' ' :: (x ++ [' '])))) ++ [([] : Str)]).map stripP
      = [] :: (hs ++ [[]]) := by
    rw [List.map_append, List.map_cons, List.map_map]
    rw [show (List.zipWith ljust ws hs).map (stripP ∘ fun x => ' ' :: (x ++ [' '])) = hs from
      map_strip_pieces ws hs hfit htrim]
    simp [stripP_nil]
  unfold parseHeaderLine
  rw [splitOnChar_rowLine _ hXne hXbar, hpieces]
  rw [show ([] : Str) :: (hs ++ [[]]) = ([] :: hs) ++ [[]] from rfl, List.filter_append]
  rw [List.filter_cons]
  simp only [List.isEmpty_nil, Bool.not_true, if_false]
  rw [List.filter_eq_self.mpr (fun a ha => by simpa using hnempty a ha)]
  simp

/-! ## Helper lemmas for C1: parsing a document assembled from known lines -/

/-- Parsing a document whose lines are: bar-free prefix lines, then table
lines (a header line and further `|`-lines), then a blank line followed by
arbitrary suffix lines. -/
theorem parse_of_lines (preLines tlines plines : List Str) (hline : Str)
    (hnl : ∀ l ∈ preLines ++ (hline :: tlines) ++ ([] :: plines), ¬ '\n' ∈ l)
    (hpre : ∀ l ∈ preLines, hasBar l = false)
    (hhead : hasBar hline = true)
    (htab : ∀ l ∈ tlines, hasBar l = true) :
    parse_markdown_table (joinSep ['\n'] (preLines ++ (hline :: tlines) ++ ([] :: plines))) =
      ⟨parseHeaderLine hline,
       (tlines.drop 1).filterMap parseRowLine,
       joinSep ['\n'] preLines,
       joinSep ['\n'] ([] :: plines)⟩ := by
  have hsplit : splitOnChar '\n'
      (joinSep ['\n'] (preLines ++ (hline :: tlines) ++ ([] :: plines))) =
      preLines ++ (hline :: tlines) ++ ([] :: plines) :=
    splitOnChar_joinSep '\n' _ (by simp) hnl
  have hts : (preLines ++ (hline :: tlines) ++ ([] :: plines)).findIdx?
      (fun l => hasBar l) = some preLines.length := by
    rw [List.append_assoc, List.findIdx?_append,
      List.findIdx?_eq_none_iff.mpr (fun x hx => hpre x hx)]
    rw [Option.none_or]
    rw [show ((hline :: tlines) ++ ([] :: plines)) = hline :: (tlines ++ ([] :: plines))
      from rfl]
    rw [List.findIdx?_cons, hhead]
    simp
  have hdrop1 : (preLines ++ (hline :: tlines) ++ ([] :: plines)).drop
      (preLines.length + 1) = tlines ++ ([] :: plines) := by
    rw [show preLines ++ (hline :: tlines) ++ ([] :: plines) =
      (preLines ++ [hline]) ++ (tlines ++ ([] :: plines)) by simp]
    exact List.drop_left' (by simp)
  have hte : (tlines ++ ([] :: plines)).findIdx? (fun l => !hasBar (stripP l)) =
      some tlines.length := by
    rw [List.findIdx?_append,
      List.findIdx?_eq_none_iff.mpr (fun x hx => by rw [hasBar_stripP, htab x hx]; rfl)]
    rw [Option.none_or, List.findIdx?_cons]
    rw [show (!hasBar (stripP ([] : Str))) = true from rfl]
    simp
  have htake_te : (preLines ++ (hline :: tlines) ++ ([] :: plines)).take
      (preLines.length + 1 + tlines.length) = preLines ++ (hline :: tlines) := by
    apply List.take_left'
    simp
    omega
  have hdrop_ts : (preLines ++ (hline :: tlines)).drop preLines.length = hline :: tlines :=
    List.drop_left preLines (hline :: tlines)
  have htake_ts : (preLines ++ (hline :: tlines) ++ ([] :: plines)).take
      preLines.length = preLines := by
    rw [List.append_assoc]
    exact List.take_left preLines _
  have hdrop_te : (preLines ++ (hline :: tlines) ++ ([] :: plines)).drop
      (preLines.length + 1 + tlines.length) = [] :: plines := by
    apply List.drop_left'
    simp
    omega
  simp only [parse_markdown_table, hsplit, hts, hdrop1, hte, htake_te, hdrop_ts, htake_ts,
    hdrop_te, List.drop_succ_cons, List.drop_zero]

/-! ## Helper lemmas for C1: the assembled document as a list of lines -/

theorem joinSep_blank_cons (X : List Str) (hX : X ≠ []) :
    joinSep ['\n'] ([] :: X) = '\n' :: joinSep ['\n'] X := by
  cases X with
  | nil => exact absurd rfl hX
  | cons x t =>
    rw [joinSep_cons_cons]
    rfl

theorem joinSep_append_blank (X : List Str) (hX : X ≠ []) :
    joinSep ['\n'] (X ++ [[]]) = joinSep ['\n'] X ++ ['\n'] := by
  rw [joinSep_append '\n' X [[]] hX (by simp)]
  simp [joinSep]

/-- `assembleDoc` produces exactly the newline-join of: the prefix's lines and
a blank line (when the stripped prefix is non-empty), the table lines, a blank
line, and the suffix's lines (when the stripped suffix is non-empty). -/
theorem assembleDoc_as_joinSep (p s : Str) (tlines : List Str) (htlne : tlines ≠ []) :
    assembleDoc p s (joinSep ['\n'] tlines) = joinSep ['\n']
      ((if (rstripP p).isEmpty then [] else splitOnChar '\n' (rstripP p) ++ [[]]) ++ tlines ++
       ([] :: (if (lstripP s).isEmpty then [] else splitOnChar '\n' (lstripP s)))) := by
  by_cases hb : (rstripP p).isEmpty = true
  · have hb' : rstripP p = [] := List.isEmpty_iff.mp hb
    by_cases ha : (lstripP s).isEmpty = true
    · rw [if_pos hb, if_pos ha]
      simp only [assembleDoc]
      rw [if_pos hb, if_pos ha, hb']
      simp only [List.nil_append]
      rw [joinSep_append_blank tlines htlne]
    · rw [if_pos hb, if_neg ha]
      simp only [assembleDoc]
      rw [if_pos hb, if_neg ha, hb']
      simp only [List.nil_append]
      rw [joinSep_append '\n' tlines ([] :: splitOnChar '\n' (lstripP s)) htlne (by simp),
        joinSep_blank_cons _ (splitOnChar_ne_nil '\n' _), joinSep_splitOnChar]
      simp [toL]
  · by_cases ha : (lstripP s).isEmpty = true
    · rw [if_neg hb, if_pos ha]
      simp only [assembleDoc]
      rw [if_neg hb, if_pos ha]
      rw [show (splitOnChar '\n' (rstripP p) ++ [[]]) ++ tlines ++ ([] :: ([] : List Str)) =
        (splitOnChar '\n' (rstripP p) ++ [[]]) ++ (tlines ++ [[]]) by simp]
      rw [joinSep_append '\n' _ _ (by simp) (by simp),
        joinSep_append_blank _ (splitOnChar_ne_nil '\n' _),
        joinSep_append_blank tlines htlne, joinSep_splitOnChar]
      simp [toL, List.append_assoc]
    · rw [if_neg hb, if_neg ha]
      simp only [assembleDoc]
      rw [if_neg hb, if_neg ha]
      rw [show (splitOnChar '\n' (rstripP p) ++ [[]]) ++ tlines ++
          ([] :: splitOnChar '\n' (lstripP s)) =
        (splitOnChar '\n' (rstripP p) ++ [[]]) ++
          (tlines ++ ([] :: splitOnChar '\n' (lstripP s))) by simp]
      rw [joinSep_append '\n' _ _ (by simp) (by simp),
        joinSep_append_blank _ (splitOnChar_ne_nil '\n' _),
        joinSep_append '\n' tlines _ htlne (by simp),
        joinSep_blank_cons _ (splitOnChar_ne_nil '\n' _),
        joinSep_splitOnChar, joinSep_splitOnChar]
      simp [toL, List.append_assoc]

theorem rebuildFull_fst (headers : List Str) (rows : List (List Str))
    (before after : Str) (beautify add_emoji : Bool) (h : rows ≠ []) :
    (rebuildFull headers rows before after beautify add_emoji).1 =
      assembleDoc before after
        (joinSep ['\n'] (rebuildTableLines headers rows beautify add_emoji)) := by
  unfold rebuildFull
  rw [if_neg (by simpa using h)]

/-! ## Helper lemmas for C1: well-formedness of decorated cells -/

theorem containsSub_nil (needle : Str) : containsSub needle [] = needle.isEmpty := rfl

theorem add_status_emoji_eq_or (x : Str) :
    add_status_emoji x = x ∨
    ∃ p ∈ STATUS_EMOJI, add_status_emoji x = p.2 :: ' ' :: stripP x ∧
      containsSub p.1 (upperP (stripP x)) = true := by
  by_cases h1 : STATUS_EMOJI.any (fun p => x.contains p.2) = true
  · exact Or.inl (add_status_emoji_of_any x h1)
  · have h1' : STATUS_EMOJI.any (fun p => x.contains p.2) = false := by simpa using h1
    cases h2 : STATUS_EMOJI.find? (fun p => containsSub p.1 (upperP (stripP x))) with
    | none => exact Or.inl (add_status_emoji_of_find_none x h1' h2)
    | some q =>
      exact Or.inr ⟨q, List.mem_of_find?_eq_some h2,
        add_status_emoji_of_find_some x q h1' h2, by simpa using List.find?_some h2⟩

theorem mem_of_mem_stripP (c : Char) (l : Str) (h : c ∈ stripP l) : c ∈ l := by
  have h2 : List.Sublist (stripP l) (rstripP l) := List.dropWhile_sublist _
  have h1 : List.Sublist (rstripP l) l := by
    have := (List.dropWhile_sublist (l := l.reverse) pyIsSpace).reverse
    rwa [List.reverse_reverse] at this
  exact (h2.trans h1).subset h

theorem stripP_length_le (l : Str) : (stripP l).length ≤ l.length := by
  have h2 : List.Sublist (stripP l) (rstripP l) := List.dropWhile_sublist _
  have h1 : List.Sublist (rstripP l) l := by
    have := (List.dropWhile_sublist (l := l.reverse) pyIsSpace).reverse
    rwa [List.reverse_reverse] at this
  exact (h2.trans h1).length_le

theorem decorated_ne_nil_input (x : Str) (q : Str × Char) (hq : q ∈ STATUS_EMOJI)
    (hsub : containsSub q.1 (upperP (stripP x)) = true) : stripP x ≠ [] := by
  intro h0
  rw [h0] at hsub
  rw [show upperP [] = [] from rfl, containsSub_nil] at hsub
  have : ∀ r ∈ STATUS_EMOJI, r.1.isEmpty = false := by decide
  rw [this q hq] at hsub
  cases hsub

theorem glyph_not_space : ∀ q ∈ STATUS_EMOJI, pyIsSpace q.2 = false := by decide

/-- Decoration preserves strippedness for stripped inputs. -/
theorem decorate_stripped (x : Str) (hx : stripP x = x) :
    stripP (add_status_emoji x) = add_status_emoji x := by
  rcases add_status_emoji_eq_or x with h | ⟨q, hq, h, hsub⟩
  · rw [h, hx]
  · rw [h, hx]
    have hne : x ≠ [] := by
      have := decorated_ne_nil_input x q hq hsub
      rwa [hx] at this
    obtain ⟨hl, hr⟩ := stripP_eq_self_split x hx
    unfold stripP
    rw [show q.2 :: ' ' :: x = [q.2, ' '] ++ x from rfl,
      rstripP_append_keep [q.2, ' '] x hr hne]
    rw [show [q.2, ' '] ++ x = q.2 :: (' ' :: x) from rfl]
    exact lstripP_cons_of_not_space q.2 (' ' :: x) (glyph_not_space q hq)

theorem decorate_not_mem (d : Char) (x : Str) (hx : ¬ d ∈ x)
    (hglyph : ∀ q ∈ STATUS_EMOJI, q.2 ≠ d) (hsp : d ≠ ' ') :
    ¬ d ∈ add_status_emoji x := by
  rcases add_status_emoji_eq_or x with h | ⟨q, hq, h, _⟩
  · rw [h]
    exact hx
  · rw [h]
    intro hm
    rcases List.mem_cons.mp hm with h1 | h1
    · exact hglyph q hq h1.symm
    · rcases List.mem_cons.mp h1 with h2 | h2
      · exact hsp h2
      · exact hx (mem_of_mem_stripP d x h2)

theorem decorate_length_le (x : Str) : (add_status_emoji x).length ≤ x.length + 2 := by
  rcases add_status_emoji_eq_or x with h | ⟨q, _, h, _⟩
  · rw [h]
    omega
  · rw [h]
    have := stripP_length_le x
    simp only [List.length_cons]
    omega

/-! ## Helper lemmas for C1: widths fit all cells -/

theorem getD_mem_of_lt {α : Type} (l : List α) (i : Nat) (d : α) (hi : i < l.length) :
    l.getD i d ∈ l := by
  induction l generalizing i with
  | nil => simp at hi
  | cons a t ih =>
    cases i with
    | zero => simp
    | succ n =>
      rw [List.getD_cons_succ]
      exact List.mem_cons_of_mem a (ih n (by simpa using hi))

theorem map_length_getD (hs : List Str) (i : Nat) (hi : i < hs.length) :
    (hs.map List.length).getD i 0 = (hs.getD i []).length := by
  rw [List.getD_eq_getElem?_getD, List.getD_eq_getElem?_getD, List.getElem?_map,
    List.getElem?_eq_getElem hi]
  rfl

/-- Under the 15-character bound on headers and cells, every header and every
cell (at a column position) fits inside the computed column width. -/
theorem calc_width_fit (headers : List Str) (rows : List (List Str))
    (hhead : ∀ h ∈ headers, h.length ≤ 15)
    (hcell : ∀ r ∈ rows, ∀ c ∈ r, c.length ≤ 15) :
    (∀ i, i < headers.length →
      (headers.getD i []).length ≤ (calculate_column_widths headers rows).getD i 0) ∧
    (∀ r ∈ rows, ∀ i, i < headers.length → i < r.length →
      (r.getD i []).length ≤ (calculate_column_widths headers rows).getD i 0) := by
  have hpre_len : (rows.foldl (updateWidths 80) (headers.map List.length)).length =
      headers.length := by
    rw [foldl_updateWidths_length, List.length_map]
  have hcalc : calculate_column_widths headers rows =
      capWidths max_widths (rows.foldl (updateWidths 80) (headers.map List.length)) := rfl
  have hcap15 : ∀ cap ∈ max_widths, 15 ≤ cap := by decide
  have hmain : ∀ v : Nat, v ≤ 15 →
      ∀ i, i < headers.length →
      v ≤ (rows.foldl (updateWidths 80) (headers.map List.length)).getD i 0 →
      v ≤ (calculate_column_widths headers rows).getD i 0 := by
    intro v hv i hi hpre
    rw [hcalc, capWidths_getD _ _ i (by rwa [hpre_len])]
    cases hmw : max_widths.get? i with
    | none => exact hpre
    | some cap =>
      have h15 := hcap15 cap (List.get?_mem hmw)
      exact Nat.le_min.mpr ⟨hpre, by omega⟩
  constructor
  · intro i hi
    apply hmain _ (hhead _ (getD_mem_of_lt headers i [] hi)) i hi
    · have hinit : (headers.map List.length).getD i 0 = (headers.getD i []).length :=
        map_length_getD headers i hi
      have := foldl_updateWidths_getD_ge 80 rows (headers.map List.length) i
      rw [hinit] at this
      exact this
  · intro r hr i hi hir
    apply hmain _ (hcell r hr _ (getD_mem_of_lt r i [] hir)) i hi
    · have := foldl_updateWidths_getD_cell 80 rows (headers.map List.length) r hr i
        (by rwa [List.length_map]) hir
      rwa [Nat.min_eq_left (le_trans (hcell r hr _ (getD_mem_of_lt r i [] hir)) (by omega))]
        at this

/-! ## Helper lemmas for C1: widths are insensitive to padding and clipping -/

theorem updateWidths_nil_left (mw : Nat) (cs : List Str) :
    updateWidths mw [] cs = [] := by
  cases cs <;> rfl

theorem updateWidths_replicate_nil (mw : Nat) (ws : List Nat) (m : Nat) :
    updateWidths mw ws (List.replicate m []) = ws := by
  induction ws generalizing m with
  | nil => rw [updateWidths_nil_left]
  | cons w ws' ih =>
    cases m with
    | zero => rfl
    | succ k =>
      rw [List.replicate_succ]
      show max w (min ([] : Str).length mw) :: updateWidths mw ws' (List.replicate k []) =
        w :: ws'
      rw [ih k]
      simp

theorem updateWidths_append_replicate (mw : Nat) (ws : List Nat) (r : List Str) (m : Nat) :
    updateWidths mw ws (r ++ List.replicate m []) = updateWidths mw ws r := by
  induction ws generalizing r with
  | nil => rw [updateWidths_nil_left, updateWidths_nil_left]
  | cons w ws' ih =>
    cases r with
    | nil =>
      rw [List.nil_append, updateWidths_replicate_nil]
      rfl
    | cons c cs =>
      rw [List.cons_append]
      show max w (min c.length mw) :: updateWidths mw ws' (cs ++ List.replicate m []) =
        max w (min c.length mw) :: updateWidths mw ws' cs
      rw [ih cs]

theorem updateWidths_take (mw : Nat) (ws : List Nat) (r : List Str) (n : Nat)
    (hn : ws.length ≤ n) : updateWidths mw ws (r.take n) = updateWidths mw ws r := by
  induction ws generalizing r n with
  | nil => rw [updateWidths_nil_left, updateWidths_nil_left]
  | cons w ws' ih =>
    cases r with
    | nil => simp
    | cons c cs =>
      cases n with
      | zero => simp at hn
      | succ k =>
        rw [List.take_succ_cons]
        show max w (min c.length mw) :: updateWidths mw ws' (cs.take k) =
          max w (min c.length mw) :: updateWidths mw ws' cs
        rw [ih cs k (by simpa using hn)]

theorem updateWidths_pad_take (mw : Nat) (ws : List Nat) (r : List Str) (n : Nat)
    (hn : ws.length ≤ n) :
    updateWidths mw ws ((padRow n r).take n) = updateWidths mw ws r := by
  rw [updateWidths_take mw ws _ n hn]
  unfold padRow
  rw [updateWidths_append_replicate]

theorem foldl_updateWidths_congr_len (mw : Nat) (rows : List (List Str))
    (f : List Str → List Str) (n : Nat)
    (h : ∀ ws : List Nat, ws.length = n → ∀ r ∈ rows,
      updateWidths mw ws (f r) = updateWidths mw ws r) :
    ∀ ws : List Nat, ws.length = n →
      (rows.map f).foldl (updateWidths mw) ws = rows.foldl (updateWidths mw) ws := by
  induction rows with
  | nil => intro ws _; rfl
  | cons r rs ih =>
    intro ws hws
    rw [List.map_cons, List.foldl_cons, List.foldl_cons, h ws hws r (by simp)]
    exact ih (fun ws' hws' r' hr' => h ws' hws' r' (List.mem_cons_of_mem r hr'))
      (updateWidths mw ws r) (by rw [updateWidths_length]; exact hws)

/-- Padding rows to the header count and clipping them back to the header
count does not change the computed column widths. -/
theorem calc_pad_take (headers : List Str) (rows : List (List Str)) :
    calculate_column_widths headers
      (rows.map (fun r => (padRow headers.length r).take headers.length)) =
    calculate_column_widths headers rows := by
  unfold calculate_column_widths
  congr 1
  exact foldl_updateWidths_congr_len 80 rows _ headers.length
    (fun ws hws r _ => updateWidths_pad_take 80 ws r headers.length (le_of_eq hws))
    (headers.map List.length) (List.length_map headers _)

/-! ## Helper lemmas for C1: processed rows are fixed points -/

theorem take_padRow_length (n : Nat) (r : List Str) : ((padRow n r).take n).length = n := by
  rw [List.length_take, padRow_length]
  omega

theorem padRow_eq_self_of_le (n : Nat) (r : List Str) (h : n ≤ r.length) :
    padRow n r = r := by
  unfold padRow
  rw [Nat.sub_eq_zero_of_le h, List.replicate_zero, List.append_nil]

theorem set_getD_eq_self (r : List Str) (k : Nat) (hk : k < r.length) :
    r.set k (r.getD k []) = r := by
  induction r generalizing k with
  | nil => simp at hk
  | cons a t ih =>
    cases k with
    | zero => simp
    | succ m =>
      rw [List.getD_cons_succ, List.set_cons_succ, ih m (by simpa using hk)]

theorem pyGet_take_padRow (n : Nat) (r : List Str) (k : Nat) (hk : k < n) :
    pyGet ((padRow n r).take n) (k : Int) = pyGet (padRow n r) (k : Int) := by
  rw [pyGet_natCast, pyGet_natCast, List.getD_eq_getElem?_getD, List.getD_eq_getElem?_getD,
    List.getElem?_take_of_lt hk]

theorem decorateRow_fixed_of (k : Nat) (r2 : List Str) (hk : k < r2.length)
    (hfix : add_status_emoji (r2.getD k []) = r2.getD k []) :
    decorateRow (k : Int) r2 = r2 := by
  unfold decorateRow
  rw [if_pos (by exact_mod_cast hk), pySet_natCast, pyGet_natCast, hfix]
  exact set_getD_eq_self r2 k hk

/-- Decorating an already decorated, padded and clipped row changes nothing. -/
theorem decorateRow_processed_fixed (n : Nat) (r : List Str) (k : Nat) (hk : k < n) :
    decorateRow (k : Int) ((padRow n (decorateRow (k : Int) r)).take n) =
      (padRow n (decorateRow (k : Int) r)).take n := by
  have hlen : ((padRow n (decorateRow (k : Int) r)).take n).length = n :=
    take_padRow_length n _
  have hcell : ((padRow n (decorateRow (k : Int) r)).take n).getD k [] =
      add_status_emoji (pyGet (padRow n r) (k : Int)) := by
    rw [← pyGet_natCast, pyGet_take_padRow n _ k hk]
    exact padRow_decorateRow_pyGet n r k hk
  exact decorateRow_fixed_of k _ (by omega)
    (by rw [hcell, add_status_emoji_idem])

/-! ## Helper lemmas for C1: assorted utilities -/

theorem filterMap_eq_map_of_forall {α β : Type} (l : List α) (g : α → Option β) (f : α → β)
    (h : ∀ x ∈ l, g x = some (f x)) : l.filterMap g = l.map f := by
  induction l with
  | nil => rfl
  | cons a t ih =>
    rw [List.filterMap_cons, h a (by simp), List.map_cons,
      ih (fun x hx => h x (List.mem_cons_of_mem a hx))]

theorem sepCells_not_mem (d : Char) (ws : List Nat) (n : Nat) (hd : d ≠ '-') :
    ∀ x ∈ sepCells ws n, ¬ d ∈ x := by
  induction n generalizing ws with
  | zero =>
    intro x hx
    cases ws <;> simp [sepCells] at hx
  | succ k ih =>
    intro x hx
    cases ws with
    | nil =>
      rcases List.mem_cons.mp hx with rfl | hx2
      · intro hm
        rcases List.mem_cons.mp hm with h1 | h1
        · exact hd h1
        · rcases List.mem_cons.mp h1 with h2 | h2
          · exact hd h2
          · simp at h2
            exact hd h2
      · exact ih [] x hx2
    | cons w ws' =>
      rcases List.mem_cons.mp hx with rfl | hx2
      · intro hm
        exact hd (List.eq_of_mem_replicate hm)
      · exact ih ws' x hx2

theorem forall₂_of_getD (ws : List Nat) (cs : List Str) (hlen : cs.length = ws.length)
    (h : ∀ i, i < cs.length → (cs.getD i []).length ≤ ws.getD i 0) :
    List.Forall₂ (fun (w : Nat) (c : Str) => c.length ≤ w) ws cs := by
  induction ws generalizing cs with
  | nil =>
    cases cs with
    | nil => exact .nil
    | cons c cs' => simp at hlen
  | cons w ws' ih =>
    cases cs with
    | nil => simp at hlen
    | cons c cs' =>
      refine .cons ?_ (ih cs' (by simpa using hlen) ?_)
      · have := h 0 (by simp)
        simpa using this
      · intro i hi
        have := h (i + 1) (by simpa using hi)
        simpa [List.getD_cons_succ] using this

theorem take_padRow_getD (n : Nat) (r : List Str) (i : Nat) (hi : i < n) :
    ((padRow n r).take n).getD i [] =
      if i < r.length then r.getD i [] else [] := by
  by_cases hir : i < r.length
  · rw [if_pos hir]
    exact padRow_take_getD n r i hir hi
  · rw [if_neg hir]
    rw [List.getD_eq_getElem?_getD, List.getElem?_take_of_lt hi]
    unfold padRow
    rw [List.getElem?_append_right (by omega), List.getElem?_replicate, if_pos (by omega)]
    rfl

/-! ## Helper lemmas for C1: cells of the decorated rows stay well-formed -/

theorem decorateRow_mem_nat (k : Nat) (r : List Str) (c : Str)
    (hc : c ∈ decorateRow (k : Int) r) : c ∈ r ∨ ∃ x ∈ r, c = add_status_emoji x := by
  unfold decorateRow at hc
  by_cases h : (k : Int) < (r.length : Int)
  · rw [if_pos h, pySet_natCast, pyGet_natCast] at hc
    rcases List.mem_or_eq_of_mem_set hc with h1 | h1
    · exact Or.inl h1
    · exact Or.inr ⟨r.getD k [], getD_mem_of_lt r k [] (by exact_mod_cast h), h1⟩
  · rw [if_neg h] at hc
    exact Or.inl hc

/-- Every cell of a decorated row is stripped, free of `|` and newlines, and
at most two characters longer than the 13-character input bound. -/
theorem rows1_cell_wf (hs : List Str) (rs : List (List Str))
    (hcell : ∀ r ∈ rs, ∀ c ∈ r,
      stripP c = c ∧ ¬ '|' ∈ c ∧ ¬ '\n' ∈ c ∧ c.length ≤ 13) :
    ∀ r ∈ rebuildRows1 hs rs true, ∀ c ∈ r,
      stripP c = c ∧ ¬ '|' ∈ c ∧ ¬ '\n' ∈ c ∧ c.length ≤ 15 := by
  intro r hr c hc
  unfold rebuildRows1 at hr
  by_cases hcond : (true && decide (find_status_column hs ≠ -1)) = true
  · rw [if_pos hcond] at hr
    obtain ⟨r0, hr0, rfl⟩ := List.mem_map.mp hr
    have hfsc : find_status_column hs ≠ -1 := by simpa using hcond
    obtain ⟨k, hk, hklt⟩ := find_status_column_spec hs hfsc
    rw [hk] at hc
    rcases decorateRow_mem_nat k r0 c hc with h1 | ⟨x, hx, rfl⟩
    · obtain ⟨ha, hb, hcnl, hd⟩ := hcell r0 hr0 c h1
      exact ⟨ha, hb, hcnl, by omega⟩
    · obtain ⟨ha, hb, hcnl, hd⟩ := hcell r0 hr0 x hx
      refine ⟨decorate_stripped x ha, decorate_not_mem '|' x hb (by decide) (by decide),
        decorate_not_mem '\n' x hcnl (by decide) (by decide), ?_⟩
      have := decorate_length_le x
      omega
  · rw [if_neg hcond] at hr
    obtain ⟨ha, hb, hcnl, hd⟩ := hcell r hr c hc
    exact ⟨ha, hb, hcnl, by omega⟩

theorem padRow_take_mem (n : Nat) (r : List Str) (c : Str)
    (hc : c ∈ (padRow n r).take n) : c ∈ r ∨ c = [] := by
  have h1 : c ∈ padRow n r := List.mem_of_mem_take hc
  unfold padRow at h1
  rcases List.mem_append.mp h1 with h | h
  · exact Or.inl h
  · exact Or.inr (List.eq_of_mem_replicate h)

theorem rebuildWidths_eq_calc (hs : List Str) (rs : List (List Str)) (ae : Bool) :
    rebuildWidths hs rs ae = calculate_column_widths hs (rebuildRows1 hs rs ae) := by
  unfold rebuildWidths rebuildRows1
  by_cases h : (ae && decide (find_status_column hs ≠ -1)) = true
  · rw [if_pos h, if_pos h]
  · rw [if_neg h, if_neg h]

theorem mem_of_mem_rstripP (c : Char) (l : Str) (h : c ∈ rstripP l) : c ∈ l := by
  have h1 : List.Sublist (rstripP l) l := by
    have := (List.dropWhile_sublist (l := l.reverse) pyIsSpace).reverse
    rwa [List.reverse_reverse] at this
  exact h1.subset h

theorem hasBar_eq_false_of_not_mem (l : Str) (h : ¬ '|' ∈ l) : hasBar l = false := by
  unfold hasBar
  simp only [List.contains, List.elem_eq_mem]
  exact decide_eq_false h

theorem filterMap_map_eq_map {α β γ : Type} (l : List α) (g : α → β) (pf : β → Option γ)
    (f : α → γ) (h : ∀ x ∈ l, pf (g x) = some (f x)) :
    (l.map g).filterMap pf = l.map f := by
  induction l with
  | nil => rfl
  | cons a t ih =>
    rw [List.map_cons, List.filterMap_cons, h a (by simp), List.map_cons,
      ih (fun x hx => h x (List.mem_cons_of_mem a hx))]

/-- Stage A for claim C1: parsing the rendered document recovers the headers,
the processed rows clipped to the header count, and the stripped prefix and
suffix in line-joined form. -/
theorem parse_of_render (hs : List Str) (rs : List (List Str)) (p s : Str)
    (hhne : hs ≠ []) (hrne : rs ≠ [])
    (hhead : ∀ h ∈ hs, stripP h = h ∧ h ≠ [] ∧ ¬ '|' ∈ h ∧ ¬ '\n' ∈ h ∧ h.length ≤ 15)
    (hcell : ∀ r ∈ rs, ∀ c ∈ r, stripP c = c ∧ ¬ '|' ∈ c ∧ ¬ '\n' ∈ c ∧ c.length ≤ 13)
    (hp : ¬ '|' ∈ p) :
    parse_markdown_table (rebuild_markdown_table hs rs p s true true) =
      ⟨hs, (rebuildRows2 hs rs true).map (fun r => r.take hs.length),
       joinSep ['\n']
         (if (rstripP p).isEmpty then [] else splitOnChar '\n' (rstripP p) ++ [[]]),
       joinSep ['\n']
         ([] :: (if (lstripP s).isEmpty then []
           else splitOnChar '\n' (lstripP s)))⟩ := by
  have hn1 : 0 < hs.length := List.length_pos.mpr hhne
  have hW : rebuildWidths hs rs true =
      calculate_column_widths hs (rebuildRows1 hs rs true) := rebuildWidths_eq_calc hs rs true
  have hWlen : (rebuildWidths hs rs true).length = hs.length := by
    rw [hW, calculate_column_widths_length]
  have hwf1 := rows1_cell_wf hs rs hcell
  have hfit := calc_width_fit hs (rebuildRows1 hs rs true)
    (fun h hh => (hhead h hh).2.2.2.2)
    (fun r hr c hc => (hwf1 r hr c hc).2.2.2)
  have hhlen : hs.length = (rebuildWidths hs rs true).length := hWlen.symm
  have hhfit : List.Forall₂ (fun (w : Nat) (c : Str) => c.length ≤ w)
      (rebuildWidths hs rs true) hs := by
    apply forall₂_of_getD _ _ hhlen
    intro i hi
    rw [hW]
    exact hfit.1 i hi
  have hheadline :
      parseHeaderLine (rowLine (headerCells (rebuildWidths hs rs true) hs)) = hs :=
    parseHeaderLine_rendered _ hs hhlen hhfit
      (fun h hh => (hhead h hh).1) (fun h hh => (hhead h hh).2.2.1)
      (fun h hh => (hhead h hh).2.1) hhne
  have hrowfit : ∀ r1 ∈ rebuildRows1 hs rs true,
      List.Forall₂ (fun (w : Nat) (c : Str) => c.length ≤ w)
        (rebuildWidths hs rs true) ((padRow hs.length r1).take hs.length) := by
    intro r1 hr1
    apply forall₂_of_getD
    · rw [take_padRow_length, hWlen]
    · intro i hi
      rw [take_padRow_length] at hi
      rw [take_padRow_getD _ _ _ hi]
      by_cases hir : i < r1.length
      · rw [if_pos hir, hW]
        exact hfit.2 r1 hr1 i hi hir
      · rw [if_neg hir]
        exact Nat.zero_le _
  have hrowtrim : ∀ r1 ∈ rebuildRows1 hs rs true,
      ∀ c ∈ (padRow hs.length r1).take hs.length, stripP c = c := by
    intro r1 hr1 c hc
    rcases padRow_take_mem _ _ _ hc with h | rfl
    · exact (hwf1 r1 hr1 c h).1
    · rfl
  have hrowbar : ∀ r1 ∈ rebuildRows1 hs rs true,
      ∀ c ∈ (padRow hs.length r1).take hs.length, ¬ '|' ∈ c := by
    intro r1 hr1 c hc
    rcases padRow_take_mem _ _ _ hc with h | rfl
    · exact (hwf1 r1 hr1 c h).2.1
    · simp
  have hrownl : ∀ r1 ∈ rebuildRows1 hs rs true,
      ∀ c ∈ (padRow hs.length r1).take hs.length, ¬ '\n' ∈ c := by
    intro r1 hr1 c hc
    rcases padRow_take_mem _ _ _ hc with h | rfl
    · exact (hwf1 r1 hr1 c h).2.2.1
    · simp
  have hrowne : ∀ r1 : List Str, (padRow hs.length r1).take hs.length ≠ [] := by
    intro r1 h0
    have := take_padRow_length hs.length r1
    rw [h0] at this
    simp at this
    omega
  have hrowparse : ∀ r1 ∈ rebuildRows1 hs rs true,
      parseRowLine (rowLine (renderCells (rebuildWidths hs rs true)
        ((padRow hs.length r1).take hs.length))) =
      some ((padRow hs.length r1).take hs.length) := by
    intro r1 hr1
    exact parseRowLine_rendered _ _ (hrowfit r1 hr1) (hrowtrim r1 hr1) (hrowbar r1 hr1)
      (hrowne r1)
  have hnl_header : ¬ '\n' ∈ rowLine (headerCells (rebuildWidths hs rs true) hs) := by
    apply not_mem_rowLine '\n' _ (by decide) (by decide)
    rw [headerCells_eq_of_length _ hs hhlen]
    exact zipWith_ljust_char_free '\n' _ hs (fun h hh => (hhead h hh).2.2.2.1) (by decide)
  have hnl_sep : ¬ '\n' ∈ rowLine (sepCells (rebuildWidths hs rs true) hs.length) :=
    not_mem_rowLine '\n' _ (by decide) (by decide)
      (sepCells_not_mem '\n' _ _ (by decide))
  have hnl_data : ∀ r1 ∈ rebuildRows1 hs rs true,
      ¬ '\n' ∈ rowLine (renderCells (rebuildWidths hs rs true)
        ((padRow hs.length r1).take hs.length)) := by
    intro r1 hr1
    apply not_mem_rowLine '\n' _ (by decide) (by decide)
    rw [renderCells_eq_of_fit _ _ (hrowfit r1 hr1)]
    exact zipWith_ljust_char_free '\n' _ _ (hrownl r1 hr1) (by decide)
  have htable : rebuildTableLines hs rs true true =
      rowLine (headerCells (rebuildWidths hs rs true) hs) ::
      rowLine (sepCells (rebuildWidths hs rs true) hs.length) ::
      (rebuildRows1 hs rs true).map (fun r1 => rowLine (renderCells
        (rebuildWidths hs rs true) ((padRow hs.length r1).take hs.length))) := by
    unfold rebuildTableLines rebuildRows2
    rw [if_pos rfl, List.map_map]
    rfl
  have hdoc : rebuild_markdown_table hs rs p s true true =
      joinSep ['\n']
        ((if (rstripP p).isEmpty then [] else splitOnChar '\n' (rstripP p) ++ [[]]) ++
         (rowLine (headerCells (rebuildWidths hs rs true) hs) ::
          (rowLine (sepCells (rebuildWidths hs rs true) hs.length) ::
           (rebuildRows1 hs rs true).map (fun r1 => rowLine (renderCells
             (rebuildWidths hs rs true) ((padRow hs.length r1).take hs.length))))) ++
         ([] :: (if (lstripP s).isEmpty then []
           else splitOnChar '\n' (lstripP s)))) := by
    unfold rebuild_markdown_table
    rw [rebuildFull_fst hs rs p s true true hrne, htable,
      assembleDoc_as_joinSep p s _ (by simp)]
  have hnl : ∀ l ∈ (if (rstripP p).isEmpty then []
        else splitOnChar '\n' (rstripP p) ++ [[]]) ++
      ((rowLine (headerCells (rebuildWidths hs rs true) hs)) ::
       (rowLine (sepCells (rebuildWidths hs rs true) hs.length) ::
        (rebuildRows1 hs rs true).map (fun r1 => rowLine (renderCells
          (rebuildWidths hs rs true) ((padRow hs.length r1).take hs.length))))) ++
      ([] :: (if (lstripP s).isEmpty then []
        else splitOnChar '\n' (lstripP s))), ¬ '\n' ∈ l := by
    intro l hl
    rcases List.mem_append.mp hl with h | h
    · rcases List.mem_append.mp h with h1 | h1
      · by_cases hb : (rstripP p).isEmpty = true
        · rw [if_pos hb] at h1
          simp at h1
        · rw [if_neg hb] at h1
          rcases List.mem_append.mp h1 with h2 | h2
          · exact not_mem_of_mem_splitOnChar '\n' _ l h2
          · simp at h2
            subst h2
            simp
      · rcases List.mem_cons.mp h1 with rfl | h2
        · exact hnl_header
        · rcases List.mem_cons.mp h2 with rfl | h3
          · exact hnl_sep
          · obtain ⟨r1, hr1, rfl⟩ := List.mem_map.mp h3
            exact hnl_data r1 hr1
    · rcases List.mem_cons.mp h with rfl | h1
      · simp
      · by_cases hb : (lstripP s).isEmpty = true
        · rw [if_pos hb] at h1
          simp at h1
        · rw [if_neg hb] at h1
          exact not_mem_of_mem_splitOnChar '\n' _ l h1
  have hpre : ∀ l ∈ (if (rstripP p).isEmpty then []
      else splitOnChar '\n' (rstripP p) ++ [[]]), hasBar l = false := by
    intro l hl
    by_cases hb : (rstripP p).isEmpty = true
    · rw [if_pos hb] at hl
      simp at hl
    · rw [if_neg hb] at hl
      rcases List.mem_append.mp hl with h2 | h2
      · apply hasBar_eq_false_of_not_mem
        intro hm
        exact hp (mem_of_mem_rstripP '|' p (mem_of_mem_splitOnChar '\n' _ l h2 '|' hm))
      · simp at h2
        subst h2
        rfl
  have htab : ∀ l ∈ rowLine (sepCells (rebuildWidths hs rs true) hs.length) ::
      (rebuildRows1 hs rs true).map (fun r1 => rowLine (renderCells
        (rebuildWidths hs rs true) ((padRow hs.length r1).take hs.length))),
      hasBar l = true := by
    intro l hl
    rcases List.mem_cons.mp hl with rfl | h1
    · exact hasBar_rowLine _
    · obtain ⟨r1, hr1, rfl⟩ := List.mem_map.mp h1
      exact hasBar_rowLine _
  rw [hdoc, parse_of_lines _ _ _ _ hnl hpre (hasBar_rowLine _) htab]
  have hrows : ((rowLine (sepCells (rebuildWidths hs rs true) hs.length) ::
      (rebuildRows1 hs rs true).map (fun r1 => rowLine (renderCells
        (rebuildWidths hs rs true) ((padRow hs.length r1).take hs.length)))).drop
          1).filterMap parseRowLine =
      (rebuildRows2 hs rs true).map (fun r => r.take hs.length) := by
    rw [List.drop_succ_cons, List.drop_zero]
    unfold rebuildRows2
    rw [List.map_map]
    exact filterMap_map_eq_map (rebuildRows1 hs rs true) _ parseRowLine _ hrowparse
  rw [hrows, hheadline]

/-! ## Helper lemmas for C1: the re-rendering reproduces the first output -/

theorem dropWhile_idem (pr : Char → Bool) (l : Str) :
    List.dropWhile pr (List.dropWhile pr l) = List.dropWhile pr l := by
  induction l with
  | nil => rfl
  | cons a t ih =>
    by_cases h : pr a = true
    · rw [List.dropWhile_cons_of_pos h]
      exact ih
    · rw [List.dropWhile_cons_of_neg h, List.dropWhile_cons_of_neg h]

theorem lstripP_idem (s : Str) : lstripP (lstripP s) = lstripP s :=
  dropWhile_idem pyIsSpace s

theorem rstripP_idem (s : Str) : rstripP (rstripP s) = rstripP s := by
  unfold rstripP
  rw [List.reverse_reverse, dropWhile_idem]

/-- The prefix text recovered by the parser strips back to the stripped
original prefix. -/
theorem rstripP_joinSep_pre (p : Str) :
    rstripP (joinSep ['\n'] (if (rstripP p).isEmpty then []
      else splitOnChar '\n' (rstripP p) ++ [[]])) = rstripP p := by
  by_cases hb : (rstripP p).isEmpty = true
  · rw [if_pos hb, List.isEmpty_iff.mp hb]
    rfl
  · rw [if_neg hb,
      joinSep_append_blank _ (splitOnChar_ne_nil '\n' _), joinSep_splitOnChar,
      rstripP_append_of_space (rstripP p) ['\n']
        (by intro c hc; simp at hc; subst hc; decide)]
    exact rstripP_idem p

/-- The suffix text recovered by the parser strips back to the stripped
original suffix. -/
theorem lstripP_joinSep_post (s : Str) :
    lstripP (joinSep ['\n'] ([] :: (if (lstripP s).isEmpty then []
      else splitOnChar '\n' (lstripP s)))) = lstripP s := by
  by_cases hb : (lstripP s).isEmpty = true
  · rw [if_pos hb, List.isEmpty_iff.mp hb]
    rfl
  · rw [if_neg hb,
      joinSep_blank_cons _ (splitOnChar_ne_nil '\n' _), joinSep_splitOnChar]
    unfold lstripP
    rw [List.dropWhile_cons_of_pos (by decide)]
    exact dropWhile_idem pyIsSpace s

theorem assembleDoc_congr (p₁ p₂ s₁ s₂ t : Str) (hpp : rstripP p₁ = rstripP p₂)
    (hss : lstripP s₁ = lstripP s₂) : assembleDoc p₁ s₁ t = assembleDoc p₂ s₂ t := by
  simp only [assembleDoc, hpp, hss]

/-- Decorating the reparsed rows changes nothing: they are already decorated. -/
theorem rebuildRows1_reparsed (hs : List Str) (rs : List (List Str)) :
    rebuildRows1 hs ((rebuildRows2 hs rs true).map (fun r => r.take hs.length)) true =
      (rebuildRows2 hs rs true).map (fun r => r.take hs.length) := by
  unfold rebuildRows1
  by_cases hcond : (true && decide (find_status_column hs ≠ -1)) = true
  · rw [if_pos hcond]
    have hfsc : find_status_column hs ≠ -1 := by simpa using hcond
    obtain ⟨k, hk, hklt⟩ := find_status_column_spec hs hfsc
    have hX : (rebuildRows2 hs rs true).map (fun r => r.take hs.length) =
        rs.map (fun r => (padRow hs.length (decorateRow (k : Int) r)).take hs.length) := by
      unfold rebuildRows2 rebuildRows1
      rw [if_pos hcond, hk, List.map_map, List.map_map]
      rfl
    rw [hk, hX, List.map_map]
    apply List.map_congr_left
    intro r _
    exact decorateRow_processed_fixed hs.length r k hklt
  · rw [if_neg hcond]

theorem rebuildRows2_take_eq (hs : List Str) (rs : List (List Str)) :
    (rebuildRows2 hs rs true).map (fun r => r.take hs.length) =
      (rebuildRows1 hs rs true).map
        (fun r => (padRow hs.length r).take hs.length) := by
  unfold rebuildRows2
  rw [List.map_map]
  rfl

/-- The reparsed rows reproduce the column widths of the first rendering. -/
theorem rebuildWidths_reparsed (hs : List Str) (rs : List (List Str)) :
    rebuildWidths hs ((rebuildRows2 hs rs true).map (fun r => r.take hs.length)) true =
      rebuildWidths hs rs true := by
  rw [rebuildWidths_eq_calc, rebuildRows1_reparsed, rebuildRows2_take_eq, calc_pad_take,
    ← rebuildWidths_eq_calc]

/-- Padding the reparsed rows changes nothing: they are already padded. -/
theorem rebuildRows2_reparsed (hs : List Str) (rs : List (List Str)) :
    rebuildRows2 hs ((rebuildRows2 hs rs true).map (fun r => r.take hs.length)) true =
      (rebuildRows2 hs rs true).map (fun r => r.take hs.length) := by
  have h1 : rebuildRows2 hs
      ((rebuildRows2 hs rs true).map (fun r => r.take hs.length)) true =
      (rebuildRows1 hs ((rebuildRows2 hs rs true).map (fun r => r.take hs.length)) true).map
        (padRow hs.length) := rfl
  rw [h1, rebuildRows1_reparsed, rebuildRows2_take_eq, List.map_map]
  apply List.map_congr_left
  intro r _
  exact padRow_eq_self_of_le _ _ (le_of_eq (take_padRow_length hs.length r).symm)

/-- The reparsed rows produce the same beautified table lines. -/
theorem rebuildTableLines_reparsed (hs : List Str) (rs : List (List Str)) :
    rebuildTableLines hs
      ((rebuildRows2 hs rs true).map (fun r => r.take hs.length)) true true =
      rebuildTableLines hs rs true true := by
  unfold rebuildTableLines
  rw [if_pos rfl, if_pos rfl, rebuildWidths_reparsed, rebuildRows2_reparsed, List.map_map]
  congr 1
  congr 1
  apply List.map_congr_left
  intro r _
  show rowLine (renderCells (rebuildWidths hs rs true)
    ((r.take hs.length).take hs.length)) = _
  rw [List.take_take, Nat.min_self]

theorem rebuildRows2_ne_nil (hs : List Str) (rs : List (List Str)) (hrne : rs ≠ []) :
    rebuildRows2 hs rs true ≠ [] := by
  unfold rebuildRows2 rebuildRows1
  by_cases hcond : (true && decide (find_status_column hs ≠ -1)) = true
  · rw [if_pos hcond]
    simpa using hrne
  · rw [if_neg hcond]
    simpa using hrne

/-- Claim C1, counterexample: with header `["H"]`, the single record
`[["ab "]]` (a cell with a trailing space), and empty prefix and suffix, the
extract-of-render loses the trailing space, the recomputed column width
shrinks, and the second rendering differs from the first, so the claimed
idempotence does not hold for every header list, record list, prefix and
suffix. -/
theorem C1_counterexample :
    rebuild_markdown_table
      (parse_markdown_table
        (rebuild_markdown_table [toL "H"] [[toL "ab "]] [] [] true true)).headers
      (parse_markdown_table
        (rebuild_markdown_table [toL "H"] [[toL "ab "]] [] [] true true)).rows
      (parse_markdown_table
        (rebuild_markdown_table [toL "H"] [[toL "ab "]] [] [] true true)).before
      (parse_markdown_table
        (rebuild_markdown_table [toL "H"] [[toL "ab "]] [] [] true true)).after
      true true ≠
    rebuild_markdown_table [toL "H"] [[toL "ab "]] [] [] true true := by
  decide

/-- Claim C1 (amended): rendering is idempotent on well-formed input — headers
and cells already stripped, free of `|` and newline characters, headers
non-empty and at most 15 characters, cells at most 13 characters (so that
decorated cells still fit under every column cap and no truncation occurs),
a prefix without `|`, and non-empty header and record lists. Then extracting
the table back out of the beautified, emoji-decorated output of
`rebuild_markdown_table` and rendering it again with the same settings yields
the byte-identical document. Without the well-formedness hypotheses the claim
fails (`C1_counterexample`). -/
theorem C1_render_extract_idempotent_amended
    (hs : List Str) (rs : List (List Str)) (p s : Str)
    (hhne : hs ≠ []) (hrne : rs ≠ [])
    (hhead : ∀ h ∈ hs, stripP h = h ∧ h ≠ [] ∧ ¬ '|' ∈ h ∧ ¬ '\n' ∈ h ∧ h.length ≤ 15)
    (hcell : ∀ r ∈ rs, ∀ c ∈ r, stripP c = c ∧ ¬ '|' ∈ c ∧ ¬ '\n' ∈ c ∧ c.length ≤ 13)
    (hp : ¬ '|' ∈ p) :
    rebuild_markdown_table
      (parse_markdown_table (rebuild_markdown_table hs rs p s true true)).headers
      (parse_markdown_table (rebuild_markdown_table hs rs p s true true)).rows
      (parse_markdown_table (rebuild_markdown_table hs rs p s true true)).before
      (parse_markdown_table (rebuild_markdown_table hs rs p s true true)).after
      true true =
    rebuild_markdown_table hs rs p s true true := by
  rw [parse_of_render hs rs p s hhne hrne hhead hcell hp]
  dsimp only
  have hrs'ne : (rebuildRows2 hs rs true).map (fun r => r.take hs.length) ≠ [] := by
    have := rebuildRows2_ne_nil hs rs hrne
    simpa using this
  unfold rebuild_markdown_table
  rw [rebuildFull_fst _ _ _ _ _ _ hrs'ne, rebuildFull_fst _ _ _ _ _ _ hrne,
    rebuildTableLines_reparsed]
  exact assembleDoc_congr _ _ _ _ _ (rstripP_joinSep_pre p) (lstripP_joinSep_post s)

/-- Concrete instance of the amended C1 theorem: header `["H"]`, record
`[["ab"]]`, empty prefix and suffix. -/
theorem C1_witness :
    rebuild_markdown_table
      (parse_markdown_table
        (rebuild_markdown_table [toL "H"] [[toL "ab"]] [] [] true true)).headers
      (parse_markdown_table
        (rebuild_markdown_table [toL "H"] [[toL "ab"]] [] [] true true)).rows
      (parse_markdown_table
        (rebuild_markdown_table [toL "H"] [[toL "ab"]] [] [] true true)).before
      (parse_markdown_table
        (rebuild_markdown_table [toL "H"] [[toL "ab"]] [] [] true true)).after
      true true =
    rebuild_markdown_table [toL "H"] [[toL "ab"]] [] [] true true :=
  C1_render_extract_idempotent_amended [toL "H"] [[toL "ab"]] [] []
    (by decide) (by decide) (by decide) (by decide) (by decide)

end DarkWatch
